import Mathlib

/-!
# canhelpwith-bot: ingestion cycle, result handler and index mapping

A shallow embedding of `canhelpwith-bot.go`.

* Go values become Lean structures with the field names of the source.
* `int64` identifiers are `Int`; the program never does arithmetic on them.
* A Go `map[string]int64` is an association list with unique keys, wrapped in
  `Option`: `none` is the nil map (reads give the zero value, a write faults).
* The timeline client, the configuration file and the search index are
  external; they are oracles collected in `World`, and every call the program
  makes is recorded, in order, as an `Effect`.
* A Go pointer is an `Option`, `none` being nil.
* A runtime fault (Go panic) is an explicit outcome.
-/

namespace CanHelpWith

/-! ## Data model -/

/-- The fields of `madon.Account` that the program reads. -/
structure Account where
  DisplayName : String := ""
  Username : String := ""
deriving DecidableEq, Repr

/-- The fields of `madon.Status` that the program reads. `Account` is a
pointer, `*madon.Account`: `none` is nil. -/
structure MadonStatus where
  ID : Int := 0
  Account : Option Account := none
  Content : String := ""
  URL : String := ""
deriving DecidableEq, Repr

/-- The type `madon.LimitParams`; `var lp madon.LimitParams` is `{}`. -/
structure LimitParams where
  Limit : Int := 0
  SinceID : Int := 0
  MaxID : Int := 0
  All : Bool := false
deriving DecidableEq, Repr

/-- The type `config` (lines 22-34). `HashtagScanned = none` is the nil map. -/
structure config where
  AppName : String := ""
  Webpage : String := ""
  Permissions : List String := []
  Instance : String := ""
  AppID : String := ""
  AppSecret : String := ""
  Username : String := ""
  Password : String := ""
  Hashtags : List String := []
  HashtagScanned : Option (List (String × Int)) := none
  Adress : String := ""
deriving DecidableEq, Repr

/-- The type `Status` (lines 36-42). `Message` is a `template.HTML`, a string;
`Score` is a `float64`, which the program only copies and prints: it is
abstracted to a natural number. -/
structure Status where
  ID : String := ""
  Name : String := ""
  Message : String := ""
  Score : Nat := 0
  URL : String := ""
deriving DecidableEq, Repr

/-- The method `func (s *Status) Type() string` (lines 44-46). -/
def Status.Type_ (_s : Status) : String := "Status"

/-! ## Go maps -/

/-- Entry of key `h` in a non-nil map, if there is one. -/
def mapFind : List (String × Int) → String → Option Int
  | [], _ => none
  | (k, v) :: rest, h => if k = h then some v else mapFind rest h

/-- The map after `m[h] = v` on a non-nil map: the entry of `h` is replaced, or
added when there was none. -/
def mapAssign : List (String × Int) → String → Int → List (String × Int)
  | [], h, v => [(h, v)]
  | (k, w) :: rest, h, v =>
    if k = h then (k, v) :: rest else (k, w) :: mapAssign rest h v

/-- The watermark entry the store holds for topic `h`: none for the nil map
and for a map without the key. -/
def watermark (m : Option (List (String × Int))) (h : String) : Option Int :=
  match m with
  | none => none
  | some l => mapFind l h

/-- The Go expression `c.HashtagScanned[h]`: the entry, or the zero value when
the map is nil or has no such key. -/
def mapIndex (m : Option (List (String × Int))) (h : String) : Int :=
  (watermark m h).getD 0

/-! ## The world outside the program -/

/-- What `index.Index(id, data)` can be handed as `data interface{}`: a raw
`madon.Status`, a `Status` value, or a pointer to a `Status`. -/
inductive IndexData where
  | madonStatus (s : MadonStatus)
  | status (st : Status)
  | statusPtr (st : Status)
deriving DecidableEq, Repr

/-- The calls the program makes to the outside, with their outcomes. -/
inductive Effect where
  /-- The call `client.GetTimelines(h, false, false, &lp)`. -/
  | GetTimelines (h : String) (lp : LimitParams)
  /-- The call `log.Println("Couldnt load Stati:", err)`. -/
  | logPrintln (msg : String) (err : String)
  /-- The call `saveConfig(c, "")`, with the error it returned. -/
  | saveConfig (c : config) (path : String) (err : Option String)
  /-- The call `fmt.Println("Error saving config:", err)`. -/
  | fmtPrintln (msg : String) (err : String)
  /-- The call `index.Index(id, data)`, with the error it returned. -/
  | indexIndex (id : String) (data : IndexData) (err : Option String)
deriving DecidableEq, Repr

/-- The external collaborators as oracles. The first argument of each is the
number of earlier calls of the same kind in the cycle, so that a collaborator
may answer the same request differently at different times.
`GetTimelines` returns the Go pair `([]madon.Status, error)`, the error
`none` being `nil`. -/
structure World where
  GetTimelines : Nat → String → LimitParams → List MadonStatus × Option String
  saveConfig : Nat → config → Option String
  Index : Nat → String → IndexData → Option String

/-! ## `addStatitoIndex` (lines 81-115) -/

/-- Lines 84-91: the request parameters for topic `h`. -/
def limitParams (scanned : Option (List (String × Int))) (h : String) : LimitParams :=
  let lp : LimitParams := {}
  let last := mapIndex scanned h
  if last ≠ 0 then
    { lp with All := false, SinceID := last }
  else
    { lp with All := true }

/-- The variables of the first loop: the shared map `c.HashtagScanned`, the
slice `stati`, and the effects so far. -/
structure ScanState where
  scanned : Option (List (String × Int))
  stati : List MadonStatus
  effects : List Effect
deriving DecidableEq, Repr

/-- Lines 101-104: save the configuration, print the error if there is one. -/
def saveStep (w : World) (c : config) (i : Nat) (s : ScanState) : ScanState :=
  let snapshot : config := { c with HashtagScanned := s.scanned }
  let err := w.saveConfig i snapshot
  let s1 := { s with effects := s.effects ++ [Effect.saveConfig snapshot "" err] }
  match err with
  | some e => { s1 with effects := s1.effects ++ [Effect.fmtPrintln "Error saving config:" e] }
  | none => s1

/-- One iteration of the loop of lines 83-105, for the `i`-th topic `h`.
`Except.error` is a runtime fault: the assignment of line 99 to an entry of a
nil map. -/
def scanHashtag (w : World) (c : config) (i : Nat) (h : String) (s : ScanState) :
    Except ScanState ScanState :=
  let lp := limitParams s.scanned h
  let r := w.GetTimelines i h lp
  let st := r.1
  let s1 := { s with effects := s.effects ++ [Effect.GetTimelines h lp] }
  let s2 :=
    match r.2 with
    | some e => { s1 with effects := s1.effects ++ [Effect.logPrintln "Couldnt load Stati:" e] }
    | none => { s1 with stati := s1.stati ++ st }
  match st with
  | [] => Except.ok (saveStep w c i s2)
  | x :: _ =>
    match s2.scanned with
    | none => Except.error s2
    | some m => Except.ok (saveStep w c i { s2 with scanned := some (mapAssign m h x.ID) })

/-- The loop of lines 83-105 over the topics that remain, `i` being the
position of the next one. -/
def scanLoop (w : World) (c : config) : Nat → List String → ScanState → Except ScanState ScanState
  | _, [], s => Except.ok s
  | i, h :: hs, s =>
    match scanHashtag w c i h s with
    | Except.ok s1 => scanLoop w c (i + 1) hs s1
    | Except.error s1 => Except.error s1

/-- Lines 107-111: the `Status` built from a fetched item. `none` is a runtime
fault: line 109 reads `s.Account.DisplayName` through a nil pointer. -/
def mkStatus (s : MadonStatus) : Option Status :=
  let st : Status := {}
  let st := { st with ID := toString s.ID }
  match s.Account with
  | none => none
  | some account =>
    let st := { st with Name := account.DisplayName ++ " / " ++ account.Username }
    let st := { st with URL := s.URL }
    some { st with Message := s.Content }

/-- The loop of lines 106-113: `j` is the position of the next item. Line 112
passes `s`, the fetched item, to `index.Index`. The result is the effects of
the loop and whether it ended in the fault of line 109. -/
def indexLoop (w : World) : Nat → List MadonStatus → List Effect × Bool
  | _, [] => ([], false)
  | j, s :: rest =>
    match mkStatus s with
    | none => ([], true)
    | some st =>
      let r := indexLoop w (j + 1) rest
      (Effect.indexIndex st.ID (IndexData.madonStatus s)
          (w.Index j st.ID (IndexData.madonStatus s)) :: r.1, r.2)

/-- What one call of `addStatitoIndex` leaves behind: the shared map, the
effects, and whether the call ended in a runtime fault (line 99 in the first
loop, line 109 in the second). -/
structure Outcome where
  HashtagScanned : Option (List (String × Int))
  effects : List Effect
  fault : Bool
deriving DecidableEq, Repr

/-- The loop variables on entry: the map of the configuration, `stati` nil
(line 82), no effect yet. -/
def scanStart (c : config) : ScanState :=
  { scanned := c.HashtagScanned, stati := [], effects := [] }

/-- The function `addStatitoIndex(c, client)` (lines 81-115). -/
def addStatitoIndex (w : World) (c : config) : Outcome :=
  match scanLoop w c 0 c.Hashtags (scanStart c) with
  | Except.error s => { HashtagScanned := s.scanned, effects := s.effects, fault := true }
  | Except.ok s =>
    { HashtagScanned := s.scanned, effects := s.effects ++ (indexLoop w 0 s.stati).1,
      fault := (indexLoop w 0 s.stati).2 }

/-! ## `showtemplate` and `resultHandler` (lines 117-164) -/

/-- The fields of bleve's `search.DocumentMatch` that the handler reads. The
score is a `float64`, abstracted to a natural number; `Fields` is a Go map,
ranged over in some order. -/
structure DocumentMatch where
  ID : String := ""
  Score : Nat := 0
  Fields : List (String × String) := []
deriving DecidableEq, Repr

/-- The field of bleve's `SearchResult` that the handler reads. -/
structure SearchResult where
  Hits : List DocumentMatch := []
deriving DecidableEq, Repr

/-- The calls the handler makes, in order. -/
inductive HandlerEffect where
  /-- The call `index.Search(searchRequest)` for the query string, with
  highlighting requested or not. -/
  | Search (q : String) (highlight : Bool)
  /-- A line written to the response with `fmt.Fprintln(w, msg, err)`. -/
  | Fprintln (msg : String) (err : String)
  /-- The call `searchRequest.SortBy(order)`. -/
  | SortBy (order : List String)
  /-- The call `fmt.Println(i, res)`. -/
  | Println (i : Nat) (res : DocumentMatch)
  /-- The call `fmt.Printf` of one field of a hit. -/
  | Printf (k : String) (v : String)
  /-- The call `template.ParseFiles(path)`. -/
  | ParseFiles (path : String)
  /-- The call `t.Execute(w, data)` on the template parsed from `path`. -/
  | Execute (path : String) (data : List Status)
deriving DecidableEq, Repr

/-- The collaborators of the handler as oracles. `Search` returns the Go pair
`(*bleve.SearchResult, error)`: the pointer may be nil (`none`). -/
structure HandlerWorld where
  Search : String → Option SearchResult × Option String
  ParseFiles : String → Option String
  Execute : String → List Status → Option String

/-- The function `showtemplate(w, path, data)` (lines 117-128). -/
def showtemplate (hw : HandlerWorld) (path : String) (data : List Status) : List HandlerEffect :=
  match hw.ParseFiles path with
  | some e => [HandlerEffect.ParseFiles path, HandlerEffect.Fprintln "Error parsing template:" e]
  | none =>
    match hw.Execute path data with
    | some e =>
      [HandlerEffect.ParseFiles path, HandlerEffect.Execute path data,
        HandlerEffect.Fprintln "Error executing template:" e]
    | none => [HandlerEffect.ParseFiles path, HandlerEffect.Execute path data]

/-- The loop of lines 141-162: each hit is printed, then its fields. Nothing
is appended to `stati`. -/
def printHits : Nat → List DocumentMatch → List HandlerEffect
  | _, [] => []
  | i, res :: rest =>
    HandlerEffect.Println i res
      :: (res.Fields.map fun kv => HandlerEffect.Printf kv.1 kv.2) ++ printHits (i + 1) rest

/-- The function `resultHandler(w, r)` (lines 130-164), `q` being
`r.FormValue("query")`. `Except.error` is a runtime fault: line 141 reads
`searchResult.Hits` through a nil pointer. -/
def resultHandler (hw : HandlerWorld) (q : String) :
    Except (List HandlerEffect) (List HandlerEffect) :=
  let r := hw.Search q
  let searchResult := r.1
  let e1 := [HandlerEffect.Search q true]
  let e2 :=
    match r.2 with
    | some e => e1 ++ [HandlerEffect.Fprintln "Error executing search:" e]
    | none => e1
  let e3 := e2 ++ [HandlerEffect.SortBy ["-_score"]]
  let stati : List Status := []
  match searchResult with
  | none => Except.error e3
  | some res =>
    Except.ok (e3 ++ printHits 0 res.Hits ++ showtemplate hw "templates/result.html" stati)

/-- The data of the first `t.Execute` among some effects, if there is one. -/
def templateData : List HandlerEffect → Option (List Status)
  | [] => none
  | HandlerEffect.Execute _ data :: _ => some data
  | _ :: rest => templateData rest

/-- The result view a run of the handler hands to the template: none when the
run faults or the template does not parse. -/
def resultView : Except (List HandlerEffect) (List HandlerEffect) → Option (List Status)
  | Except.ok es => templateData es
  | Except.error _ => none

/-! ## The index mapping and the start of `main` (lines 176-214) -/

/-- The fields of bleve's `mapping.FieldMapping` that matter here. -/
structure FieldMapping where
  Type_ : String := ""
  Analyzer : String := ""
  Store : Bool := false
  Index : Bool := false
  IncludeTermVectors : Bool := false
  IncludeInAll : Bool := false
deriving DecidableEq, Repr

/-- The constructor `bleve.NewTextFieldMapping()` of the bleve library: a text
field that is stored and indexed, with no analyzer named. -/
def NewTextFieldMapping : FieldMapping :=
  { Type_ := "text", Store := true, Index := true, IncludeTermVectors := true,
    IncludeInAll := true }

/-- A bleve document mapping: the field mappings registered per property. -/
structure DocumentMapping where
  Enabled : Bool := true
  Dynamic : Bool := true
  Properties : List (String × List FieldMapping) := []
deriving DecidableEq, Repr

/-- The constructor `bleve.NewDocumentMapping()`. -/
def NewDocumentMapping : DocumentMapping := {}

/-- The method `AddFieldMappingsAt(property, fm)` of a document mapping: the
field mapping is added to those of the property. -/
def DocumentMapping.AddFieldMappingsAt (dm : DocumentMapping) (property : String)
    (fm : FieldMapping) : DocumentMapping :=
  match dm.Properties.lookup property with
  | some fms =>
    { dm with Properties :=
        dm.Properties.map fun p => if p.1 = property then (p.1, fms ++ [fm]) else p }
  | none => { dm with Properties := dm.Properties ++ [(property, [fm])] }

/-- A bleve index mapping: the document mappings registered per type name, the
default type and its mapping. -/
structure IndexMapping where
  TypeMapping : List (String × DocumentMapping) := []
  DefaultType : String := "_default"
  DefaultMapping : DocumentMapping := {}
deriving DecidableEq, Repr

/-- The constructor `bleve.NewIndexMapping()`. -/
def NewIndexMapping : IndexMapping := {}

/-- The method `AddDocumentMapping(doctype, dm)` of an index mapping. -/
def IndexMapping.AddDocumentMapping (im : IndexMapping) (doctype : String)
    (dm : DocumentMapping) : IndexMapping :=
  { im with TypeMapping := (doctype, dm) :: im.TypeMapping.filter fun p => p.1 ≠ doctype }

/-- Lines 188-199 of `main`: the mapping the index is created with. -/
def mainMapping : IndexMapping :=
  let statusMapping := NewDocumentMapping
  let messageFieldMapping := NewTextFieldMapping
  let messageFieldMapping := { messageFieldMapping with Analyzer := "en" }
  let statusMapping := statusMapping.AddFieldMappingsAt "Message" messageFieldMapping
  let nameFieldMapping := NewTextFieldMapping
  let nameFieldMapping := { nameFieldMapping with Analyzer := "en" }
  let statusMapping := statusMapping.AddFieldMappingsAt "Name" nameFieldMapping
  let urlFieldMapping := NewTextFieldMapping
  let urlFieldMapping := { urlFieldMapping with Index := false }
  let statusMapping := statusMapping.AddFieldMappingsAt "URL" urlFieldMapping
  let mapping := NewIndexMapping
  mapping.AddDocumentMapping "Status" statusMapping

/-- The type name bleve classifies an indexed value by: the result of its
`Type()` method when the value has one. Only `*Status` has the method of lines
44-46 (pointer receiver); `madon.Status` and a `Status` value have none. -/
def classifierType : IndexData → Option String
  | IndexData.madonStatus _ => none
  | IndexData.status _ => none
  | IndexData.statusPtr st => some st.Type_

/-- The document type bleve maps an indexed value with: its classifier type,
else the default type of the index mapping (neither `madon.Status` nor
`Status` has a `_type` field for bleve to read a type from). -/
def documentType (im : IndexMapping) (data : IndexData) : String :=
  (classifierType data).getD im.DefaultType

/-- The document mapping that governs an indexed value. -/
def mappingFor (im : IndexMapping) (data : IndexData) : DocumentMapping :=
  (im.TypeMapping.lookup (documentType im data)).getD im.DefaultMapping

/-- What `os.Stat("toot.bleve")` reports (lines 185-186, 206). -/
inductive StatResult where
  | notExist
  | found
  | otherError
deriving DecidableEq, Repr

/-- Lines 180-214 of `main`, from the loaded configuration to the one handed
to `addStatitoIndex`: a fresh map is made only where the index is created.
`none` is `log.Fatal`. `newErr` and `openErr` say whether `bleve.New` and
`bleve.Open` fail. -/
def mainConfig (loaded : config) (stat : StatResult) (newErr openErr : Bool) : Option config :=
  match stat with
  | StatResult.notExist =>
    if newErr then none else some { loaded with HashtagScanned := some [] }
  | StatResult.found => if openErr then none else some loaded
  | StatResult.otherError => none

/-- Line 237: the initial scan of `main`, when start-up got that far. -/
def mainInitialScan (w : World) (loaded : config) (stat : StatResult) (newErr openErr : Bool) :
    Option Outcome :=
  (mainConfig loaded stat newErr openErr).map (addStatitoIndex w)

/-! ## Provisos on the timeline client -/

/-- Every successful fetch returns its items newest-first and, when a since-ID
was requested (`All = false`), only items with an ID above it. -/
def newestFirstSince (w : World) : Prop :=
  ∀ (i : Nat) (h : String) (lp : LimitParams), (w.GetTimelines i h lp).2 = none →
    (w.GetTimelines i h lp).1.Pairwise (fun a b => b.ID ≤ a.ID) ∧
    (lp.All = false → ∀ x ∈ (w.GetTimelines i h lp).1, lp.SinceID < x.ID)

/-- The timeline client returns no items with an error: `madon`'s
`GetTimelines` returns a nil list whenever it returns an error. -/
def failedFetchReturnsNil (w : World) : Prop :=
  ∀ (i : Nat) (h : String) (lp : LimitParams),
    (w.GetTimelines i h lp).2 ≠ none → (w.GetTimelines i h lp).1 = []

/-! ## Reading an outcome -/

/-- The loop state a run of the first loop ends in, fault or not. -/
def finalState : Except ScanState ScanState → ScanState
  | Except.ok s => s
  | Except.error s => s

/-- The fetch requests among some effects, in order: topic and parameters. -/
def requests : List Effect → List (String × LimitParams)
  | [] => []
  | Effect.GetTimelines h lp :: rest => (h, lp) :: requests rest
  | _ :: rest => requests rest

/-- Whether an effect is a call of `index.Index`. -/
def isIndexWrite : Effect → Bool
  | Effect.indexIndex _ _ _ => true
  | _ => false

/-- Whether an effect is a call of `saveConfig`. -/
def isSave : Effect → Bool
  | Effect.saveConfig _ _ _ => true
  | _ => false

/-- Whether an effect is the log line of a failed fetch. -/
def isLog : Effect → Bool
  | Effect.logPrintln _ _ => true
  | _ => false

/-- The configurations handed to `saveConfig` among some effects, in order. -/
def saves : List Effect → List config
  | [] => []
  | Effect.saveConfig c _ _ :: rest => c :: saves rest
  | _ :: rest => saves rest

/-- The loop state when the turn of the topic at position `k` comes: after
the iterations for the first `k` topics. -/
def stateAt (w : World) (c : config) (k : Nat) : ScanState :=
  finalState (scanLoop w c 0 (c.Hashtags.take k) (scanStart c))

/-- The watermark store when the turn of the topic at position `k` comes. -/
def storeAt (w : World) (c : config) (k : Nat) : Option (List (String × Int)) :=
  (stateAt w c k).scanned

/-- Two loop states with the same map, the same `stati` and the same effects
but for the log lines of failed fetches. -/
def agreeUpToLog (a b : ScanState) : Prop :=
  a.scanned = b.scanned ∧ a.stati = b.stati ∧
    a.effects.filter (fun e => !isLog e) = b.effects.filter (fun e => !isLog e)

/-- The world `w` with every fetch for topic `T` succeeding with no items. -/
def withEmptyFetch (w : World) (T : String) : World :=
  { w with GetTimelines := fun i h lp => if h = T then ([], none) else w.GetTimelines i h lp }

/-! ## Example inputs -/

/-- A fetched item. -/
def adaItem : MadonStatus :=
  { ID := 42, Account := some { DisplayName := "Ada", Username := "ada" },
    Content := "<p>can help with Go</p>", URL := "https://example.social/@ada/42" }

/-- The `Status` that lines 107-111 build from `adaItem`. -/
def adaStatus : Status :=
  { ID := "42", Name := "Ada / ada", Message := "<p>can help with Go</p>",
    URL := "https://example.social/@ada/42" }

/-- The item `adaItem` under another ID. -/
def itemOf (id : Int) : MadonStatus :=
  { adaItem with ID := id }

/-- A world in which every call succeeds and every fetch returns `adaItem`. -/
def calmWorld : World :=
  { GetTimelines := fun _ _ _ => ([adaItem], none),
    saveConfig := fun _ _ => none,
    Index := fun _ _ _ => none }

/-- Two topics, a watermark for the second only. -/
def twoTopics : config :=
  { Hashtags := [":go", ":rust"], HashtagScanned := some [(":rust", 7)] }

/-- One topic whose stored watermark is the zero value. -/
def zeroWatermark : config :=
  { Hashtags := [":go"], HashtagScanned := some [(":go", 0)] }

/-- One topic and an empty, non-nil map. -/
def freshTopic : config :=
  { Hashtags := [":go"], HashtagScanned := some [] }

/-- A topic listed twice, with the watermark 5. -/
def listedTwice : config :=
  { Hashtags := [":go", ":go"], HashtagScanned := some [(":go", 5)] }

/-- A topic listed twice, with the watermark 7, and another topic without. -/
def repeatedTopic : config :=
  { Hashtags := [":rust", ":go", ":rust"], HashtagScanned := some [(":rust", 7)] }

/-- A world in which every write to the index fails. -/
def failingIndexWorld : World :=
  { calmWorld with Index := fun _ _ _ => some "index closed" }

/-- A world whose timeline holds the items 9 and 8 at the first fetch of a
cycle and has gained the item 12 by the later ones; a fetch returns the
timeline newest first, above the since-ID when one is requested. -/
def growingWorld : World :=
  { calmWorld with
    GetTimelines := fun i _ lp =>
      ((if i = 0 then [itemOf 9, itemOf 8] else [itemOf 12, itemOf 9, itemOf 8]).filter
        (fun x => lp.All || decide (lp.SinceID < x.ID)), none) }

/-- A world whose timeline holds the items 9 and 8 throughout; a fetch returns
the timeline newest first, above the since-ID when one is requested. -/
def steadyWorld : World :=
  { calmWorld with
    GetTimelines := fun _ _ lp =>
      ([itemOf 9, itemOf 8].filter (fun x => lp.All || decide (lp.SinceID < x.ID)), none) }

/-- A world in which every fetch for `:go` fails, with an error and a nil
list, and every other fetch returns `adaItem`. -/
def goDownWorld : World :=
  { calmWorld with
    GetTimelines := fun _ h _ =>
      if h = ":go" then ([], some "connection reset") else ([adaItem], none) }

/-- A world whose full-history fetches succeed with an item of negative ID,
and whose bounded fetches succeed with nothing. -/
def negativeWorld : World :=
  { calmWorld with
    GetTimelines := fun _ _ lp => if lp.All then ([itemOf (-1)], none) else ([], none) }

/-- A world whose fetches succeed, newest-first: the two items after the
since-ID when one is requested, the item 3 otherwise. -/
def orderlyWorld : World :=
  { calmWorld with
    GetTimelines := fun _ _ lp =>
      if lp.All then ([itemOf 3], none)
      else ([itemOf (lp.SinceID + 2), itemOf (lp.SinceID + 1)], none) }

/-- A configuration file without a `HashtagScanned` entry, as loaded. -/
def loadedWithoutMap : config :=
  { Hashtags := [":go"], HashtagScanned := none }

/-- A hit for the document whose message is "the quick brown fox". -/
def foxHit : DocumentMatch :=
  { ID := "1", Score := 2,
    Fields := [("Name", "Ada / ada"), ("URL", "https://example.social/@ada/1")] }

/-- A handler world whose index answers the query `fox` with `foxHit`, and any
other query with no hit. -/
def foxWorld : HandlerWorld :=
  { Search := fun q => if q = "fox" then (some { Hits := [foxHit] }, none) else (some {}, none),
    ParseFiles := fun _ => none,
    Execute := fun _ _ => none }

/-! ## Lemmas on maps -/

theorem mapFind_mapAssign_self (m : List (String × Int)) (h : String) (v : Int) :
    mapFind (mapAssign m h v) h = some v := by
  induction m with
  | nil => simp [mapAssign, mapFind]
  | cons p rest ih =>
    obtain ⟨k, u⟩ := p
    by_cases hk : k = h
    · simp [mapAssign, mapFind, hk]
    · simp [mapAssign, mapFind, hk, ih]

theorem mapFind_mapAssign_of_ne (m : List (String × Int)) (h k : String) (v : Int)
    (hne : k ≠ h) : mapFind (mapAssign m h v) k = mapFind m k := by
  have hne2 : ¬ h = k := fun e => hne e.symm
  induction m with
  | nil => simp [mapAssign, mapFind, hne2]
  | cons p rest ih =>
    obtain ⟨a, u⟩ := p
    by_cases ha : a = h
    · subst ha
      simp [mapAssign, mapFind, hne2]
    · by_cases hak : a = k
      · subst hak
        simp [mapAssign, mapFind, ha]
      · simp [mapAssign, mapFind, ha, hak, ih]

theorem limitParams_congr (a b : Option (List (String × Int))) (h : String)
    (hab : watermark a h = watermark b h) : limitParams a h = limitParams b h := by
  simp [limitParams, mapIndex, hab]

theorem requests_append (a b : List Effect) : requests (a ++ b) = requests a ++ requests b := by
  induction a with
  | nil => rfl
  | cons e rest ih => cases e <;> simp [requests, ih]

/-! ## Lemmas on one iteration of the first loop -/

theorem saveStep_scanned (w : World) (c : config) (i : Nat) (s : ScanState) :
    (saveStep w c i s).scanned = s.scanned := by
  simp only [saveStep]
  split <;> rfl

theorem saveStep_effects (w : World) (c : config) (i : Nat) (s : ScanState) :
    ∃ t, (saveStep w c i s).effects = s.effects ++ t ∧ requests t = [] ∧
      ∀ e ∈ t, isIndexWrite e = false := by
  simp only [saveStep]
  split
  · rename_i e _
    exact ⟨[Effect.saveConfig { c with HashtagScanned := s.scanned } ""
        (w.saveConfig i { c with HashtagScanned := s.scanned }),
      Effect.fmtPrintln "Error saving config:" e], by simp, rfl, by simp [isIndexWrite]⟩
  · exact ⟨[Effect.saveConfig { c with HashtagScanned := s.scanned } ""
        (w.saveConfig i { c with HashtagScanned := s.scanned })], rfl, rfl,
      by simp [isIndexWrite]⟩

/-- The three ways an iteration can go, by the fetched list and the map. -/
theorem scanHashtag_cases (w : World) (c : config) (i : Nat) (h : String) (s : ScanState) :
    ((w.GetTimelines i h (limitParams s.scanned h)).1 = [] ∧
      ∃ s1, scanHashtag w c i h s = Except.ok s1 ∧ s1.scanned = s.scanned) ∨
    (∃ x rest m, (w.GetTimelines i h (limitParams s.scanned h)).1 = x :: rest ∧
      s.scanned = some m ∧
      ∃ s1, scanHashtag w c i h s = Except.ok s1 ∧ s1.scanned = some (mapAssign m h x.ID)) ∨
    (∃ x rest, (w.GetTimelines i h (limitParams s.scanned h)).1 = x :: rest ∧
      s.scanned = none ∧
      ∃ s1, scanHashtag w c i h s = Except.error s1 ∧ s1.scanned = none) := by
  obtain ⟨scanned, stati, effects⟩ := s
  rcases hr : w.GetTimelines i h (limitParams scanned h) with ⟨st, err⟩
  cases st <;> cases err <;> cases scanned <;>
    simp [scanHashtag, hr, saveStep_scanned]

theorem scanHashtag_effects (w : World) (c : config) (i : Nat) (h : String) (s : ScanState) :
    ∃ t, (finalState (scanHashtag w c i h s)).effects =
        s.effects ++ Effect.GetTimelines h (limitParams s.scanned h) :: t ∧
      requests t = [] ∧ ∀ e ∈ t, isIndexWrite e = false := by
  obtain ⟨scanned, stati, effects⟩ := s
  rcases hr : w.GetTimelines i h (limitParams scanned h) with ⟨st, err⟩
  cases st <;> cases err <;> cases scanned <;>
    simp [scanHashtag, hr, finalState, saveStep] <;>
    first
      | (split <;> simp [requests, isIndexWrite])
      | simp [requests, isIndexWrite]

theorem scanHashtag_watermark_of_ne (w : World) (c : config) (i : Nat) (h k : String)
    (s : ScanState) (hk : k ≠ h) :
    watermark (finalState (scanHashtag w c i h s)).scanned k = watermark s.scanned k := by
  rcases scanHashtag_cases w c i h s with ⟨_, s1, h1, h2⟩ | ⟨x, rest, m, _, hm, s1, h1, h2⟩ |
      ⟨x, rest, _, hm, s1, h1, h2⟩
  · simp [h1, finalState, h2]
  · simp [h1, finalState, h2, hm, watermark, mapFind_mapAssign_of_ne _ _ _ _ hk]
  · simp [h1, finalState, h2, hm]

theorem scanHashtag_independent_of_Index (w : World) (idx : Nat → String → IndexData → Option String)
    (c : config) (i : Nat) (h : String) (s : ScanState) :
    scanHashtag { w with Index := idx } c i h s = scanHashtag w c i h s := rfl

/-! ## Lemmas on the first loop -/

theorem scanLoop_append (w : World) (c : config) (pre post : List String) :
    ∀ (i : Nat) (s : ScanState), scanLoop w c i (pre ++ post) s =
      match scanLoop w c i pre s with
      | Except.ok s1 => scanLoop w c (i + pre.length) post s1
      | Except.error s1 => Except.error s1 := by
  induction pre with
  | nil => intro i s; simp [scanLoop]
  | cons h hs ih =>
    intro i s
    simp only [List.cons_append, scanLoop, List.length_cons]
    cases scanHashtag w c i h s with
    | error s1 => rfl
    | ok s1 =>
      have hlen : i + 1 + hs.length = i + (hs.length + 1) := by omega
      have h2 := ih (i + 1) s1
      rw [hlen] at h2
      exact h2

theorem scanLoop_watermark_of_not_mem (w : World) (c : config) (T : String) (hs : List String) :
    ∀ (i : Nat) (s : ScanState), T ∉ hs →
      watermark (finalState (scanLoop w c i hs s)).scanned T = watermark s.scanned T := by
  induction hs with
  | nil => intro i s _; rfl
  | cons h rest ih =>
    intro i s hT
    have hne : T ≠ h := fun e => hT (by simp [e])
    have hrest : T ∉ rest := fun e => hT (by simp [e])
    have hstep := scanHashtag_watermark_of_ne w c i h T s hne
    simp only [scanLoop]
    cases hsh : scanHashtag w c i h s with
    | error s1 =>
      rw [hsh] at hstep
      simpa [finalState] using hstep
    | ok s1 =>
      rw [hsh] at hstep
      simp only []
      rw [ih (i + 1) s1 hrest]
      simpa [finalState] using hstep

theorem scanLoop_ok_of_some (w : World) (c : config) (hs : List String) :
    ∀ (i : Nat) (s : ScanState) (m : List (String × Int)), s.scanned = some m →
      ∃ s1 m1, scanLoop w c i hs s = Except.ok s1 ∧ s1.scanned = some m1 := by
  induction hs with
  | nil => intro i s m hm; exact ⟨s, m, rfl, hm⟩
  | cons h rest ih =>
    intro i s m hm
    simp only [scanLoop]
    rcases scanHashtag_cases w c i h s with ⟨_, s1, h1, h2⟩ | ⟨x, r, m2, _, _, s1, h1, h2⟩ |
        ⟨x, r, _, hn, _⟩
    · rw [h1]
      exact ih (i + 1) s1 m (by rw [h2, hm])
    · rw [h1]
      exact ih (i + 1) s1 _ h2
    · rw [hm] at hn
      cases hn

theorem scanLoop_effects (w : World) (c : config) (hs : List String) :
    ∀ (i : Nat) (s : ScanState), ∃ t,
      (finalState (scanLoop w c i hs s)).effects = s.effects ++ t ∧
        ∀ e ∈ t, isIndexWrite e = false := by
  induction hs with
  | nil => intro i s; exact ⟨[], by simp [scanLoop, finalState], by simp⟩
  | cons h rest ih =>
    intro i s
    obtain ⟨t, ht, _, hi⟩ := scanHashtag_effects w c i h s
    simp only [scanLoop]
    cases hsh : scanHashtag w c i h s with
    | error s1 =>
      rw [hsh] at ht
      refine ⟨_, ht, ?_⟩
      intro e he
      rcases List.mem_cons.mp he with rfl | he
      · rfl
      · exact hi e he
    | ok s1 =>
      rw [hsh] at ht
      obtain ⟨t2, ht2, hi2⟩ := ih (i + 1) s1
      simp only [finalState] at ht
      refine ⟨Effect.GetTimelines h (limitParams s.scanned h) :: t ++ t2, ?_, ?_⟩
      · simp only []
        rw [ht2, ht]
        simp
      · intro e he
        rcases List.mem_append.mp he with he | he
        · rcases List.mem_cons.mp he with rfl | he
          · rfl
          · exact hi e he
        · exact hi2 e he

theorem scanLoop_independent_of_Index (w : World) (idx : Nat → String → IndexData → Option String)
    (c : config) (hs : List String) :
    ∀ (i : Nat) (s : ScanState),
      scanLoop { w with Index := idx } c i hs s = scanLoop w c i hs s := by
  induction hs with
  | nil => intro i s; rfl
  | cons h rest ih =>
    intro i s
    simp only [scanLoop, scanHashtag_independent_of_Index]
    cases scanHashtag w c i h s with
    | error s1 => rfl
    | ok s1 => exact ih (i + 1) s1

theorem requests_indexLoop (w : World) (l : List MadonStatus) :
    ∀ j : Nat, requests (indexLoop w j l).1 = [] := by
  induction l with
  | nil => intro j; rfl
  | cons x rest ih =>
    intro j
    simp only [indexLoop]
    cases mkStatus x with
    | none => rfl
    | some st => simp [requests, ih]

theorem requests_scanHashtag (w : World) (c : config) (i : Nat) (h : String) (s : ScanState) :
    requests (finalState (scanHashtag w c i h s)).effects =
      requests s.effects ++ [(h, limitParams s.scanned h)] := by
  obtain ⟨t, ht, hq, _⟩ := scanHashtag_effects w c i h s
  rw [ht, requests_append]
  simp [requests, hq]

theorem requests_scanLoop (w : World) (c : config) (hs : List String) :
    ∀ (i : Nat) (s : ScanState), ∃ r,
      requests (finalState (scanLoop w c i hs s)).effects = requests s.effects ++ r := by
  intro i s
  obtain ⟨t, ht, _⟩ := scanLoop_effects w c hs i s
  exact ⟨requests t, by rw [ht, requests_append]⟩

theorem getElem?_append_cons_length {α : Type} (a : List α) (x : α) (r : List α) :
    (a ++ x :: r)[a.length]? = some x := by
  rw [List.getElem?_append_right (Nat.le_refl _)]
  simp

theorem scanLoop_cons_ok (w : World) (c : config) (i : Nat) (h : String) (hs : List String)
    (s s1 : ScanState) (hsh : scanHashtag w c i h s = Except.ok s1) :
    scanLoop w c i (h :: hs) s = scanLoop w c (i + 1) hs s1 := by
  simp only [scanLoop, hsh]

theorem scanLoop_cons_error (w : World) (c : config) (i : Nat) (h : String) (hs : List String)
    (s s1 : ScanState) (hsh : scanHashtag w c i h s = Except.error s1) :
    scanLoop w c i (h :: hs) s = Except.error s1 := by
  simp only [scanLoop, hsh]

/-- The request issued for a topic at its first occurrence is computed from
the entry the store held for it when the loop started. -/
theorem scanLoop_request_at (w : World) (c : config) (T : String) (post : List String)
    (pre : List String) :
    ∀ (i : Nat) (s : ScanState), T ∉ pre →
      (requests s.effects).length + pre.length <
        (requests (finalState (scanLoop w c i (pre ++ T :: post) s)).effects).length →
      (requests (finalState (scanLoop w c i (pre ++ T :: post) s)).effects)[
          (requests s.effects).length + pre.length]? = some (T, limitParams s.scanned T) := by
  induction pre with
  | nil =>
    intro i s _ _
    have hreq := requests_scanHashtag w c i T s
    rw [List.nil_append, List.length_nil, Nat.add_zero]
    cases hsh : scanHashtag w c i T s with
    | error s1 =>
      rw [hsh] at hreq
      rw [scanLoop_cons_error w c i T post s s1 hsh]
      simp only [finalState] at hreq ⊢
      rw [hreq]
      exact getElem?_append_cons_length _ _ _
    | ok s1 =>
      rw [hsh] at hreq
      simp only [finalState] at hreq
      obtain ⟨r, hr⟩ := requests_scanLoop w c post (i + 1) s1
      rw [scanLoop_cons_ok w c i T post s s1 hsh, hr, hreq, List.append_assoc]
      exact getElem?_append_cons_length _ _ _
  | cons h rest ih =>
    intro i s hT hlt
    have hne : T ≠ h := fun e => hT (by simp [e])
    have hrest : T ∉ rest := fun e => hT (by simp [e])
    have hreq := requests_scanHashtag w c i h s
    have hwm := scanHashtag_watermark_of_ne w c i h T s hne
    rw [List.cons_append] at hlt ⊢
    rw [List.length_cons] at hlt ⊢
    cases hsh : scanHashtag w c i h s with
    | error s1 =>
      rw [hsh] at hreq
      rw [scanLoop_cons_error w c i h _ s s1 hsh] at hlt
      simp only [finalState] at hreq hlt
      rw [hreq] at hlt
      simp at hlt
    | ok s1 =>
      rw [hsh] at hreq hwm
      simp only [finalState] at hreq hwm
      rw [scanLoop_cons_ok w c i h _ s s1 hsh] at hlt ⊢
      have hlen : (requests s1.effects).length + rest.length =
          (requests s.effects).length + (rest.length + 1) := by
        rw [hreq]; simp; omega
      have h3 := ih (i + 1) s1 hrest (by rw [hlen]; exact hlt)
      rw [hlen, limitParams_congr _ _ _ hwm] at h3
      exact h3

/-! ## Lemmas on `addStatitoIndex` -/

theorem addStatitoIndex_scanned (w : World) (c : config) :
    (addStatitoIndex w c).HashtagScanned =
      (finalState (scanLoop w c 0 c.Hashtags (scanStart c))).scanned := by
  simp only [addStatitoIndex]
  cases scanLoop w c 0 c.Hashtags (scanStart c) <;> rfl

theorem addStatitoIndex_requests (w : World) (c : config) :
    requests (addStatitoIndex w c).effects =
      requests (finalState (scanLoop w c 0 c.Hashtags (scanStart c))).effects := by
  simp only [addStatitoIndex]
  cases scanLoop w c 0 c.Hashtags (scanStart c) with
  | error s1 => rfl
  | ok s1 => simp [finalState, requests_append, requests_indexLoop]

theorem limitParams_of_nonzero (m : Option (List (String × Int))) (T : String) (W : Int)
    (hW : watermark m T = some W) (hne : W ≠ 0) :
    limitParams m T = { All := false, SinceID := W } := by
  simp [limitParams, mapIndex, hW, hne]

theorem limitParams_of_none (m : Option (List (String × Int))) (T : String)
    (hW : watermark m T = none) : limitParams m T = { All := true } := by
  simp [limitParams, mapIndex, hW]

theorem limitParams_of_zero (m : Option (List (String × Int))) (T : String)
    (hW : watermark m T = some 0) : limitParams m T = { All := true } := by
  simp [limitParams, mapIndex, hW]

/-- After the loop, the watermark of a topic that is listed once, in a non-nil
map, is the ID of the first item fetched for it, or what it was when nothing
was fetched. -/
theorem scanLoop_watermark_at (w : World) (c : config) (T : String) (pre post : List String)
    (i : Nat) (s : ScanState) (m : List (String × Int)) (hm : s.scanned = some m)
    (hpre : T ∉ pre) (hpost : T ∉ post) :
    watermark (finalState (scanLoop w c i (pre ++ T :: post) s)).scanned T =
      match (w.GetTimelines (i + pre.length) T (limitParams s.scanned T)).1 with
      | [] => watermark s.scanned T
      | x :: _ => some x.ID := by
  obtain ⟨s1, m1, hs1, hm1⟩ := scanLoop_ok_of_some w c pre i s m hm
  have hw1 : watermark s1.scanned T = watermark s.scanned T := by
    have h := scanLoop_watermark_of_not_mem w c T pre i s hpre
    rw [hs1] at h
    exact h
  have hlp : limitParams s1.scanned T = limitParams s.scanned T := limitParams_congr _ _ _ hw1
  rw [scanLoop_append, hs1]
  simp only []
  rcases scanHashtag_cases w c (i + pre.length) T s1 with ⟨hnil, s2, h2, hsc⟩ |
      ⟨x, rest, m2, hcons, hm2, s2, h2, hsc⟩ | ⟨x, rest, _, hn, _⟩
  · rw [hlp] at hnil
    rw [scanLoop_cons_ok _ _ _ _ _ _ _ h2, scanLoop_watermark_of_not_mem w c T post _ s2 hpost,
      hnil, hsc, hw1]
  · rw [hlp] at hcons
    rw [scanLoop_cons_ok _ _ _ _ _ _ _ h2, scanLoop_watermark_of_not_mem w c T post _ s2 hpost,
      hcons, hsc]
    simp [watermark, mapFind_mapAssign_self]
  · rw [hm1] at hn
    cases hn

theorem indexLoop_isIndexWrite (w : World) (l : List MadonStatus) :
    ∀ (j : Nat) (e : Effect), e ∈ (indexLoop w j l).1 → isIndexWrite e = true := by
  induction l with
  | nil => intro j e he; simp [indexLoop] at he
  | cons x rest ih =>
    intro j e he
    simp only [indexLoop] at he
    cases hx : mkStatus x with
    | none => simp [hx] at he
    | some st =>
      simp only [hx, List.mem_cons] at he
      rcases he with rfl | he
      · rfl
      · exact ih (j + 1) e he

/-- The effects of a cycle are those of the first loop, none of them an index
write, followed by those of the second loop, all of them index writes. -/
theorem addStatitoIndex_effects_split (w : World) (c : config) :
    ∃ scan writes, (addStatitoIndex w c).effects = scan ++ writes ∧
      (∀ e ∈ scan, isIndexWrite e = false) ∧ (∀ e ∈ writes, isIndexWrite e = true) := by
  obtain ⟨t, ht, hi⟩ := scanLoop_effects w c c.Hashtags 0 (scanStart c)
  simp only [addStatitoIndex]
  cases hsl : scanLoop w c 0 c.Hashtags (scanStart c) with
  | error s1 =>
    rw [hsl] at ht
    refine ⟨t, [], ?_, hi, by simp⟩
    simpa [finalState, scanStart] using ht
  | ok s1 =>
    rw [hsl] at ht
    refine ⟨t, (indexLoop w 0 s1.stati).1, ?_, hi,
      fun e he => indexLoop_isIndexWrite w _ 0 e he⟩
    have : s1.effects = t := by simpa [finalState, scanStart] using ht
    simp [this]

theorem addStatitoIndex_independent_of_Index (w : World)
    (idx : Nat → String → IndexData → Option String) (c : config) :
    (addStatitoIndex { w with Index := idx } c).HashtagScanned =
      (addStatitoIndex w c).HashtagScanned := by
  rw [addStatitoIndex_scanned, addStatitoIndex_scanned, scanLoop_independent_of_Index]

theorem not_isSave_of_isIndexWrite (e : Effect) (h : isIndexWrite e = true) : isSave e = false := by
  cases e <;> simp_all [isIndexWrite, isSave]

theorem indexLoop_raw (w : World) (l : List MadonStatus) :
    ∀ (j : Nat) (e : Effect), e ∈ (indexLoop w j l).1 →
      ∃ s err, e = Effect.indexIndex (toString s.ID) (IndexData.madonStatus s) err := by
  induction l with
  | nil => intro j e he; simp [indexLoop] at he
  | cons x rest ih =>
    intro j e he
    simp only [indexLoop] at he
    cases hacc : x.Account with
    | none => simp [mkStatus, hacc] at he
    | some account =>
      simp only [mkStatus, hacc, List.mem_cons] at he
      rcases he with rfl | he
      · exact ⟨x, _, rfl⟩
      · exact ih (j + 1) e he

/-- Every index write of a cycle has the decimal string of an item's ID as its
key and that fetched item itself as its value. -/
theorem addStatitoIndex_index_writes_raw (w : World) (c : config) (e : Effect)
    (he : e ∈ (addStatitoIndex w c).effects) (hi : isIndexWrite e = true) :
    ∃ s err, e = Effect.indexIndex (toString s.ID) (IndexData.madonStatus s) err := by
  obtain ⟨t, ht, hnot⟩ := scanLoop_effects w c c.Hashtags 0 (scanStart c)
  simp only [addStatitoIndex] at he
  cases hsl : scanLoop w c 0 c.Hashtags (scanStart c) with
  | error s1 =>
    rw [hsl] at ht he
    have hst : s1.effects = t := by simpa [finalState, scanStart] using ht
    simp only [hst] at he
    rw [hnot e he] at hi
    cases hi
  | ok s1 =>
    rw [hsl] at ht he
    have hst : s1.effects = t := by simpa [finalState, scanStart] using ht
    simp only [List.mem_append, hst] at he
    rcases he with hmem | hmem
    · rw [hnot e hmem] at hi
      cases hi
    · exact indexLoop_raw w _ 0 e hmem

/-- With a nil map, the cycle faults as soon as the first fetch returns an
item. -/
theorem addStatitoIndex_fault_of_nil (w : World) (c : config) (h : String) (hs : List String)
    (hT : c.Hashtags = h :: hs) (hm : c.HashtagScanned = none)
    (hitems : (w.GetTimelines 0 h { All := true }).1 ≠ []) :
    (addStatitoIndex w c).fault = true := by
  have hlp : limitParams (scanStart c).scanned h = { All := true } :=
    limitParams_of_none _ _ (by simp [scanStart, hm, watermark])
  simp only [addStatitoIndex, hT]
  rcases scanHashtag_cases w c 0 h (scanStart c) with ⟨hnil, _⟩ | ⟨_, _, m, _, hsome, _⟩ |
      ⟨_, _, _, _, s1, h1, _⟩
  · rw [hlp] at hnil
    exact absurd hnil hitems
  · simp [scanStart, hm] at hsome
  · rw [scanLoop_cons_error w c 0 h hs _ s1 h1]

/-! ## Lemmas on `resultHandler` -/

theorem templateData_printHits_append (hits : List DocumentMatch) (tail : List HandlerEffect) :
    ∀ i : Nat, templateData (printHits i hits ++ tail) = templateData tail := by
  induction hits with
  | nil => intro i; rfl
  | cons res rest ih =>
    intro i
    simp only [printHits, List.cons_append, templateData, List.append_assoc]
    generalize res.Fields = fields
    induction fields with
    | nil => exact ih (i + 1)
    | cons kv more ihf => simpa [templateData] using ihf

theorem templateData_showtemplate (hw : HandlerWorld) (path : String) (data : List Status) :
    templateData (showtemplate hw path data) = none ∨
      templateData (showtemplate hw path data) = some data := by
  simp only [showtemplate]
  cases hw.ParseFiles path with
  | some e => left; rfl
  | none => cases hw.Execute path data <;> (right; rfl)

/-- Whatever the index answers, the result view is empty when there is one. -/
theorem resultView_resultHandler (hw : HandlerWorld) (q : String) :
    resultView (resultHandler hw q) = none ∨ resultView (resultHandler hw q) = some [] := by
  simp only [resultHandler]
  rcases hr : hw.Search q with ⟨res, err⟩
  cases res with
  | none => left; rfl
  | some res =>
    have key : ∀ pre : List HandlerEffect, templateData pre = none →
        templateData (pre ++ printHits 0 res.Hits ++
          showtemplate hw "templates/result.html" []) =
          templateData (showtemplate hw "templates/result.html" []) := by
      intro pre hpre
      rw [List.append_assoc]
      induction pre with
      | nil => exact templateData_printHits_append _ _ 0
      | cons e rest ih =>
        cases e <;> simp_all [templateData]
    cases err with
    | none =>
      simp only [resultView]
      rw [key _ (by rfl)]
      exact templateData_showtemplate hw _ _
    | some e =>
      simp only [resultView]
      rw [key _ (by rfl)]
      exact templateData_showtemplate hw _ _

/-! ## Lemmas on the store when a topic's turn comes -/

theorem scanLoop_scanned_none (w : World) (c : config) (hs : List String) :
    ∀ (i : Nat) (s : ScanState), s.scanned = none →
      (finalState (scanLoop w c i hs s)).scanned = none := by
  induction hs with
  | nil => intro i s hs; exact hs
  | cons h rest ih =>
    intro i s hn
    rcases scanHashtag_cases w c i h s with ⟨_, s1, h1, h2⟩ | ⟨_, _, m, _, hm, _⟩ |
        ⟨_, _, _, _, s1, h1, h2⟩
    · rw [scanLoop_cons_ok w c i h rest s s1 h1]
      exact ih (i + 1) s1 (by rw [h2, hn])
    · rw [hn] at hm
      cases hm
    · rw [scanLoop_cons_error w c i h rest s s1 h1]
      exact h2

theorem requests_length_scanLoop_ok (w : World) (c : config) (hs : List String) :
    ∀ (i : Nat) (s s1 : ScanState), scanLoop w c i hs s = Except.ok s1 →
      (requests s1.effects).length = (requests s.effects).length + hs.length := by
  induction hs with
  | nil =>
    intro i s s1 h
    simp only [scanLoop] at h
    cases h
    rfl
  | cons h rest ih =>
    intro i s s1 hok
    have hreq := requests_scanHashtag w c i h s
    cases hsh : scanHashtag w c i h s with
    | error e =>
      rw [scanLoop_cons_error w c i h rest s e hsh] at hok
      cases hok
    | ok s2 =>
      rw [scanLoop_cons_ok w c i h rest s s2 hsh] at hok
      rw [hsh] at hreq
      simp only [finalState] at hreq
      rw [ih (i + 1) s2 s1 hok, hreq]
      simp
      omega

theorem requests_length_scanLoop_error (w : World) (c : config) (hs : List String) :
    ∀ (i : Nat) (s e : ScanState), scanLoop w c i hs s = Except.error e →
      (requests e.effects).length ≤ (requests s.effects).length + hs.length := by
  induction hs with
  | nil =>
    intro i s e h
    simp only [scanLoop] at h
    cases h
  | cons h rest ih =>
    intro i s e herr
    have hreq := requests_scanHashtag w c i h s
    cases hsh : scanHashtag w c i h s with
    | error e2 =>
      rw [scanLoop_cons_error w c i h rest s e2 hsh] at herr
      cases herr
      rw [hsh] at hreq
      simp only [finalState] at hreq
      rw [hreq]
      simp
    | ok s2 =>
      rw [scanLoop_cons_ok w c i h rest s s2 hsh] at herr
      rw [hsh] at hreq
      simp only [finalState] at hreq
      have h2 := ih (i + 1) s2 e herr
      rw [hreq] at h2
      simp at h2
      simp
      omega

/-- The request issued for a topic at any place is computed from the store as
it stands when the topic's turn comes. -/
theorem scanLoop_request_any (w : World) (c : config) (T : String) (pre post : List String)
    (i : Nat) (s : ScanState)
    (hlt : (requests s.effects).length + pre.length <
      (requests (finalState (scanLoop w c i (pre ++ T :: post) s)).effects).length) :
    (requests (finalState (scanLoop w c i (pre ++ T :: post) s)).effects)[
        (requests s.effects).length + pre.length]? =
      some (T, limitParams (finalState (scanLoop w c i pre s)).scanned T) := by
  rw [scanLoop_append] at hlt ⊢
  cases hpre : scanLoop w c i pre s with
  | error e =>
    rw [hpre] at hlt
    simp only [finalState] at hlt
    have := requests_length_scanLoop_error w c pre i s e hpre
    omega
  | ok s1 =>
    rw [hpre] at hlt
    simp only [] at hlt ⊢
    have hlen := requests_length_scanLoop_ok w c pre i s s1 hpre
    have h := scanLoop_request_at w c T post [] (i + pre.length) s1 (by simp)
      (by simpa [hlen] using hlt)
    simpa [hlen, finalState] using h

theorem split_at_place (l : List String) (k : Nat) (T : String) (h : l[k]? = some T) :
    l = l.take k ++ T :: l.drop (k + 1) ∧ (l.take k).length = k := by
  obtain ⟨hk, hget⟩ := List.getElem?_eq_some.mp h
  refine ⟨?_, ?_⟩
  · have h1 : l.drop k = T :: l.drop (k + 1) := by
      rw [← hget]
      exact List.drop_eq_getElem_cons hk
    rw [← h1, List.take_append_drop]
  · rw [List.length_take]
    omega

theorem addStatitoIndex_request_at_place (w : World) (c : config) (k : Nat) (T : String)
    (hT : c.Hashtags[k]? = some T)
    (hissued : k < (requests (addStatitoIndex w c).effects).length) :
    (requests (addStatitoIndex w c).effects)[k]? = some (T, limitParams (storeAt w c k) T) := by
  obtain ⟨hsplit, hlen⟩ := split_at_place c.Hashtags k T hT
  rw [addStatitoIndex_requests] at hissued ⊢
  have h := scanLoop_request_any w c T (c.Hashtags.take k) (c.Hashtags.drop (k + 1)) 0
    (scanStart c)
  rw [← hsplit, hlen] at h
  simpa [scanStart, requests, storeAt, stateAt] using
    h (by simpa [scanStart, requests] using hissued)

theorem storeAt_of_not_mem (w : World) (c : config) (k : Nat) (T : String)
    (hT : T ∉ c.Hashtags.take k) :
    watermark (storeAt w c k) T = watermark c.HashtagScanned T :=
  scanLoop_watermark_of_not_mem w c T (c.Hashtags.take k) 0 (scanStart c) hT

/-- After the cycle, the watermark of a topic at its last place, the store
not being nil as its turn comes, is the ID of the first item fetched for it
there, or what the store held for it when nothing was fetched. -/
theorem addStatitoIndex_watermark_at_last (w : World) (c : config) (pre post : List String)
    (T : String) (m : List (String × Int)) (hc : c.Hashtags = pre ++ T :: post)
    (hlast : T ∉ post)
    (hm : (finalState (scanLoop w c 0 pre (scanStart c))).scanned = some m) :
    watermark (addStatitoIndex w c).HashtagScanned T =
      match (w.GetTimelines pre.length T
          (limitParams (finalState (scanLoop w c 0 pre (scanStart c))).scanned T)).1 with
      | [] => watermark (finalState (scanLoop w c 0 pre (scanStart c))).scanned T
      | x :: _ => some x.ID := by
  obtain ⟨m0, hm0⟩ : ∃ m0, (scanStart c).scanned = some m0 := by
    cases h0 : (scanStart c).scanned with
    | none =>
      rw [scanLoop_scanned_none w c pre 0 (scanStart c) h0] at hm
      cases hm
    | some m0 => exact ⟨m0, rfl⟩
  obtain ⟨s1, _, hs1, _⟩ := scanLoop_ok_of_some w c pre 0 (scanStart c) m0 hm0
  rw [hs1] at hm ⊢
  simp only [finalState] at hm ⊢
  have hat := scanLoop_watermark_at w c T [] post (0 + pre.length) s1 m hm (by simp) hlast
  rw [addStatitoIndex_scanned, hc, scanLoop_append, hs1]
  simpa using hat

theorem addStatitoIndex_watermark_at_last_place (w : World) (c : config) (k : Nat) (T : String)
    (m : List (String × Int)) (hT : c.Hashtags[k]? = some T)
    (hlast : T ∉ c.Hashtags.drop (k + 1)) (hm : storeAt w c k = some m) :
    watermark (addStatitoIndex w c).HashtagScanned T =
      match (w.GetTimelines k T (limitParams (storeAt w c k) T)).1 with
      | [] => watermark (storeAt w c k) T
      | x :: _ => some x.ID := by
  obtain ⟨hsplit, hlen⟩ := split_at_place c.Hashtags k T hT
  have h := addStatitoIndex_watermark_at_last w c (c.Hashtags.take k) (c.Hashtags.drop (k + 1))
    T m hsplit hlast hm
  rw [hlen] at h
  exact h

theorem growingWorld_newestFirstSince : newestFirstSince growingWorld := by
  intro i h lp _
  refine ⟨?_, ?_⟩
  · apply List.Pairwise.filter
    by_cases hi : i = 0 <;> simp [hi, itemOf, adaItem]
  · intro hA x hx
    simp only [growingWorld, List.mem_filter, hA, Bool.false_or, decide_eq_true_eq] at hx
    exact hx.2

theorem steadyWorld_newestFirstSince : newestFirstSince steadyWorld := by
  intro i h lp _
  refine ⟨?_, ?_⟩
  · apply List.Pairwise.filter
    simp [itemOf, adaItem]
  · intro hA x hx
    simp only [steadyWorld, List.mem_filter, hA, Bool.false_or, decide_eq_true_eq] at hx
    exact hx.2

/-! ## Lemmas on the saves of the first loop -/

theorem saves_append (a b : List Effect) : saves (a ++ b) = saves a ++ saves b := by
  induction a with
  | nil => rfl
  | cons e rest ih => cases e <;> simp [saves, ih]

theorem saves_saveStep (w : World) (c : config) (i : Nat) (s : ScanState) :
    saves (saveStep w c i s).effects =
      saves s.effects ++ [{ c with HashtagScanned := s.scanned }] := by
  simp only [saveStep]
  split <;> simp [saves_append, saves]

theorem saves_scanHashtag_ok (w : World) (c : config) (i : Nat) (h : String)
    (s s1 : ScanState) (hok : scanHashtag w c i h s = Except.ok s1) :
    saves s1.effects = saves s.effects ++ [{ c with HashtagScanned := s1.scanned }] := by
  obtain ⟨scanned, stati, effects⟩ := s
  rcases hr : w.GetTimelines i h (limitParams scanned h) with ⟨st, err⟩
  cases st <;> cases err <;> cases scanned <;>
    simp [scanHashtag, hr] at hok <;>
    subst hok <;>
    simp [saves_saveStep, saveStep_scanned, saves_append, saves]

theorem saves_indexLoop (w : World) (l : List MadonStatus) :
    ∀ j : Nat, saves (indexLoop w j l).1 = [] := by
  induction l with
  | nil => intro j; rfl
  | cons x rest ih =>
    intro j
    simp only [indexLoop]
    cases mkStatus x with
    | none => rfl
    | some st => simp [saves, ih]

theorem scanHashtag_ok_of_some (w : World) (c : config) (i : Nat) (h : String) (s : ScanState)
    (m : List (String × Int)) (hm : s.scanned = some m) :
    ∃ s1 m1, scanHashtag w c i h s = Except.ok s1 ∧ s1.scanned = some m1 := by
  rcases scanHashtag_cases w c i h s with ⟨_, s1, h1, h2⟩ | ⟨_, _, m2, _, _, s1, h1, h2⟩ |
      ⟨_, _, _, hn, _⟩
  · exact ⟨s1, m, h1, by rw [h2, hm]⟩
  · exact ⟨s1, _, h1, h2⟩
  · rw [hm] at hn
    cases hn

/-- With a map that is not nil, the first loop saves once per topic, each
time the configuration with the map as the iteration for that topic left it. -/
theorem saves_scanLoop (w : World) (c : config) (hs : List String) :
    ∀ (i : Nat) (s : ScanState) (m : List (String × Int)), s.scanned = some m →
      saves (finalState (scanLoop w c i hs s)).effects =
        saves s.effects ++ (List.range hs.length).map (fun k =>
          ({ c with HashtagScanned :=
              (finalState (scanLoop w c i (hs.take (k + 1)) s)).scanned } : config)) := by
  induction hs with
  | nil => intro i s m _; simp [scanLoop, finalState]
  | cons h rest ih =>
    intro i s m hm
    obtain ⟨s1, m1, h1, hm1⟩ := scanHashtag_ok_of_some w c i h s m hm
    have hsv := saves_scanHashtag_ok w c i h s s1 h1
    rw [scanLoop_cons_ok w c i h rest s s1 h1, ih (i + 1) s1 m1 hm1, hsv, List.length_cons,
      List.range_succ_eq_map, List.map_cons, List.map_map, List.append_assoc]
    congr 1
    simp only [List.take_succ_cons, List.take_zero, scanLoop_cons_ok w c i h _ s s1 h1,
      List.singleton_append, Function.comp]
    rfl

theorem scanLoop_ok_of_final_some (w : World) (c : config) (hs : List String) (i : Nat)
    (s : ScanState) (m : List (String × Int))
    (hm : (finalState (scanLoop w c i hs s)).scanned = some m) :
    ∃ s1, scanLoop w c i hs s = Except.ok s1 ∧ s1.scanned = some m := by
  obtain ⟨m0, hm0⟩ : ∃ m0, s.scanned = some m0 := by
    cases h0 : s.scanned with
    | none =>
      rw [scanLoop_scanned_none w c hs i s h0] at hm
      cases hm
    | some m0 => exact ⟨m0, rfl⟩
  obtain ⟨s1, _, hs1, _⟩ := scanLoop_ok_of_some w c hs i s m0 hm0
  rw [hs1] at hm
  exact ⟨s1, hs1, hm⟩

/-- The store after the iteration for the topic at place `k`: advanced to the
first item fetched for the topic, or as it was when nothing was fetched. -/
theorem storeAt_succ (w : World) (c : config) (k : Nat) (T : String) (m : List (String × Int))
    (hT : c.Hashtags[k]? = some T) (hm : storeAt w c k = some m) :
    storeAt w c (k + 1) =
      match (w.GetTimelines k T (limitParams (storeAt w c k) T)).1 with
      | [] => some m
      | x :: _ => some (mapAssign m T x.ID) := by
  obtain ⟨_, hlen⟩ := split_at_place c.Hashtags k T hT
  obtain ⟨s1, hs1, hm1⟩ := scanLoop_ok_of_final_some w c (c.Hashtags.take k) 0 (scanStart c) m hm
  have hst : storeAt w c k = s1.scanned := by
    simp only [storeAt, stateAt, hs1, finalState]
  have htake : c.Hashtags.take (k + 1) = c.Hashtags.take k ++ [T] := by
    rw [List.take_succ, hT]
    rfl
  rw [hst]
  simp only [storeAt, stateAt]
  rw [htake, scanLoop_append, hs1]
  simp only [hlen, Nat.zero_add]
  rcases scanHashtag_cases w c k T s1 with ⟨hnil, s2, h2, hsc⟩ |
      ⟨x, rest, m2, hcons, hm2, s2, h2, hsc⟩ | ⟨_, _, _, hn, _⟩
  · rw [scanLoop_cons_ok w c k T [] s1 s2 h2, hnil]
    simp only [scanLoop, finalState, hsc, hm1]
  · rw [scanLoop_cons_ok w c k T [] s1 s2 h2, hcons]
    rw [hm1] at hm2
    cases hm2
    simp only [scanLoop, finalState, hsc]
  · rw [hm1] at hn
    cases hn

theorem addStatitoIndex_saves (w : World) (c : config) (m : List (String × Int))
    (hm : c.HashtagScanned = some m) :
    saves (addStatitoIndex w c).effects =
      (List.range c.Hashtags.length).map (fun k =>
        ({ c with HashtagScanned := storeAt w c (k + 1) } : config)) := by
  have h := saves_scanLoop w c c.Hashtags 0 (scanStart c) m hm
  obtain ⟨s1, _, hs1, _⟩ := scanLoop_ok_of_some w c c.Hashtags 0 (scanStart c) m hm
  have hfin : finalState (Except.ok s1) = s1 := rfl
  simp only [addStatitoIndex, hs1]
  rw [hs1, hfin] at h
  rw [saves_append, saves_indexLoop, List.append_nil, h]
  simp [scanStart, saves, storeAt, stateAt]

/-! ## Lemmas on a failed fetch -/

theorem scanLoop_watermark_of_empty_fetch (w : World) (c : config) (T : String)
    (hempty : ∀ (i : Nat) (lp : LimitParams), (w.GetTimelines i T lp).1 = [])
    (hs : List String) :
    ∀ (i : Nat) (s : ScanState),
      watermark (finalState (scanLoop w c i hs s)).scanned T = watermark s.scanned T := by
  induction hs with
  | nil => intro i s; rfl
  | cons h rest ih =>
    intro i s
    have hstep : watermark (finalState (scanHashtag w c i h s)).scanned T =
        watermark s.scanned T := by
      by_cases hT : T = h
      · subst hT
        rcases scanHashtag_cases w c i T s with ⟨_, s1, h1, h2⟩ | ⟨_, _, _, hcons, _⟩ |
            ⟨_, _, hcons, _⟩
        · rw [h1]
          simp only [finalState, h2]
        · rw [hempty] at hcons
          cases hcons
        · rw [hempty] at hcons
          cases hcons
      · exact scanHashtag_watermark_of_ne w c i h T s hT
    cases hsh : scanHashtag w c i h s with
    | error s1 =>
      rw [hsh] at hstep
      rw [scanLoop_cons_error w c i h rest s s1 hsh]
      exact hstep
    | ok s1 =>
      rw [hsh] at hstep
      rw [scanLoop_cons_ok w c i h rest s s1 hsh, ih (i + 1) s1]
      exact hstep

theorem saveStep_agree (w : World) (T : String) (c : config) (i : Nat) (a b : ScanState)
    (hab : agreeUpToLog a b) :
    agreeUpToLog (saveStep w c i a) (saveStep (withEmptyFetch w T) c i b) := by
  obtain ⟨sa, sta, ea⟩ := a
  obtain ⟨sb, stb, eb⟩ := b
  obtain ⟨h1, h2, h3⟩ := hab
  simp only at h1 h2 h3
  subst h1 h2
  simp only [saveStep, withEmptyFetch]
  split <;> simp only [agreeUpToLog, List.filter_append, h3, and_self]

theorem scanHashtag_agree (w : World) (c : config) (T : String)
    (hfail : ∀ (i : Nat) (lp : LimitParams), ∃ e, w.GetTimelines i T lp = ([], some e))
    (i : Nat) (h : String) (a b : ScanState) (hab : agreeUpToLog a b) :
    (∃ a1 b1, scanHashtag w c i h a = Except.ok a1 ∧
      scanHashtag (withEmptyFetch w T) c i h b = Except.ok b1 ∧ agreeUpToLog a1 b1) ∨
    (∃ a1 b1, scanHashtag w c i h a = Except.error a1 ∧
      scanHashtag (withEmptyFetch w T) c i h b = Except.error b1 ∧ agreeUpToLog a1 b1) := by
  obtain ⟨sa, sta, ea⟩ := a
  obtain ⟨sb, stb, eb⟩ := b
  obtain ⟨h1, h2, h3⟩ := hab
  simp only at h1 h2 h3
  subst h1 h2
  by_cases hT : h = T
  · subst hT
    obtain ⟨e, he⟩ := hfail i (limitParams sa h)
    have he2 : (withEmptyFetch w h).GetTimelines i h (limitParams sa h) = ([], none) := by
      simp [withEmptyFetch]
    left
    refine ⟨_, _, by simp only [scanHashtag, he]; rfl, by simp only [scanHashtag, he2]; rfl, ?_⟩
    apply saveStep_agree
    refine ⟨rfl, by simp, ?_⟩
    simp only [List.filter_append, h3]
    simp [List.filter, isLog]
  · rcases hr : w.GetTimelines i h (limitParams sa h) with ⟨st, err⟩
    have hr2 : (withEmptyFetch w T).GetTimelines i h (limitParams sa h) = (st, err) := by
      simp [withEmptyFetch, hT, hr]
    cases st <;> cases err <;> cases sa <;>
      first
        | (left
           refine ⟨_, _, by simp only [scanHashtag, hr]; rfl,
             by simp only [scanHashtag, hr2]; rfl, ?_⟩
           apply saveStep_agree
           simp only [agreeUpToLog, List.filter_append, h3, and_self])
        | (right
           refine ⟨_, _, by simp only [scanHashtag, hr]; rfl,
             by simp only [scanHashtag, hr2]; rfl, ?_⟩
           simp only [agreeUpToLog, List.filter_append, h3, and_self])

theorem scanLoop_agree (w : World) (c : config) (T : String)
    (hfail : ∀ (i : Nat) (lp : LimitParams), ∃ e, w.GetTimelines i T lp = ([], some e))
    (hs : List String) :
    ∀ (i : Nat) (a b : ScanState), agreeUpToLog a b →
      (∃ a1 b1, scanLoop w c i hs a = Except.ok a1 ∧
        scanLoop (withEmptyFetch w T) c i hs b = Except.ok b1 ∧ agreeUpToLog a1 b1) ∨
      (∃ a1 b1, scanLoop w c i hs a = Except.error a1 ∧
        scanLoop (withEmptyFetch w T) c i hs b = Except.error b1 ∧ agreeUpToLog a1 b1) := by
  induction hs with
  | nil => intro i a b hab; exact Or.inl ⟨a, b, rfl, rfl, hab⟩
  | cons h rest ih =>
    intro i a b hab
    rcases scanHashtag_agree w c T hfail i h a b hab with ⟨a1, b1, ha, hb, hab1⟩ |
        ⟨a1, b1, ha, hb, hab1⟩
    · rw [scanLoop_cons_ok w c i h rest a a1 ha,
        scanLoop_cons_ok (withEmptyFetch w T) c i h rest b b1 hb]
      exact ih (i + 1) a1 b1 hab1
    · rw [scanLoop_cons_error w c i h rest a a1 ha,
        scanLoop_cons_error (withEmptyFetch w T) c i h rest b b1 hb]
      exact Or.inr ⟨a1, b1, rfl, rfl, hab1⟩

theorem indexLoop_withEmptyFetch (w : World) (T : String) (l : List MadonStatus) :
    ∀ j : Nat, indexLoop (withEmptyFetch w T) j l = indexLoop w j l := by
  induction l with
  | nil => intro j; rfl
  | cons x rest ih =>
    intro j
    simp only [indexLoop, ih]
    rfl

/-- A cycle in which the fetches for `T` fail with no items and the cycle in
which they succeed with no items differ in nothing but the log lines. -/
theorem addStatitoIndex_agree (w : World) (c : config) (T : String)
    (hfail : ∀ (i : Nat) (lp : LimitParams), ∃ e, w.GetTimelines i T lp = ([], some e)) :
    (addStatitoIndex w c).HashtagScanned =
      (addStatitoIndex (withEmptyFetch w T) c).HashtagScanned ∧
    (addStatitoIndex w c).fault = (addStatitoIndex (withEmptyFetch w T) c).fault ∧
    (addStatitoIndex w c).effects.filter (fun e => !isLog e) =
      (addStatitoIndex (withEmptyFetch w T) c).effects.filter (fun e => !isLog e) := by
  rcases scanLoop_agree w c T hfail c.Hashtags 0 (scanStart c) (scanStart c) ⟨rfl, rfl, rfl⟩ with
    ⟨a1, b1, ha, hb, h1, h2, h3⟩ | ⟨a1, b1, ha, hb, h1, h2, h3⟩
  · simp only [addStatitoIndex, ha, hb, indexLoop_withEmptyFetch, List.filter_append, h1, h2,
      h3, and_self]
  · simp only [addStatitoIndex, ha, hb, h1, h3, and_self]

theorem requests_fst_scanLoop_ok (w : World) (c : config) (hs : List String) :
    ∀ (i : Nat) (s s1 : ScanState), scanLoop w c i hs s = Except.ok s1 →
      (requests s1.effects).map Prod.fst = (requests s.effects).map Prod.fst ++ hs := by
  induction hs with
  | nil =>
    intro i s s1 h
    simp only [scanLoop] at h
    cases h
    simp
  | cons h rest ih =>
    intro i s s1 hok
    have hreq := requests_scanHashtag w c i h s
    cases hsh : scanHashtag w c i h s with
    | error e =>
      rw [scanLoop_cons_error w c i h rest s e hsh] at hok
      cases hok
    | ok s2 =>
      rw [scanLoop_cons_ok w c i h rest s s2 hsh] at hok
      rw [hsh] at hreq
      simp only [finalState] at hreq
      rw [ih (i + 1) s2 s1 hok, hreq]
      simp

/-- With a map that is not nil, every topic of the list is fetched, in order. -/
theorem addStatitoIndex_all_topics_requested (w : World) (c : config) (m : List (String × Int))
    (hm : c.HashtagScanned = some m) :
    (requests (addStatitoIndex w c).effects).map Prod.fst = c.Hashtags := by
  obtain ⟨s1, _, hs1, _⟩ := scanLoop_ok_of_some w c c.Hashtags 0 (scanStart c) m hm
  have h := requests_fst_scanLoop_ok w c c.Hashtags 0 (scanStart c) s1 hs1
  rw [addStatitoIndex_requests, hs1]
  simpa [finalState, scanStart, requests] using h

/-! ## Lemmas on watermarks under the provisos on the client -/

theorem scanHashtag_monotone (w : World) (c : config) (i : Nat) (h : String) (s : ScanState)
    (m : List (String × Int)) (hc : newestFirstSince w) (hn : failedFetchReturnsNil w)
    (hm : s.scanned = some m) :
    ∃ s1 m1, scanHashtag w c i h s = Except.ok s1 ∧ s1.scanned = some m1 ∧
      ∀ T W, mapFind m T = some W → ∃ W1, mapFind m1 T = some W1 ∧ (0 < W → W ≤ W1) := by
  rcases scanHashtag_cases w c i h s with ⟨_, s1, h1, h2⟩ | ⟨x, rest, m2, hcons, hm2, s1, h1, h2⟩ |
      ⟨x, rest, _, hn2, _⟩
  · exact ⟨s1, m, h1, by rw [h2, hm], fun T W hW => ⟨W, hW, fun _ => le_refl _⟩⟩
  · have hmm : m2 = m := by
      rw [hm] at hm2
      exact (Option.some.inj hm2).symm
    subst hmm
    refine ⟨s1, _, h1, h2, ?_⟩
    intro T W hW
    by_cases hT : T = h
    · subst hT
      refine ⟨x.ID, mapFind_mapAssign_self _ _ _, ?_⟩
      intro hpos
      have hx : x ∈ (w.GetTimelines i T (limitParams s.scanned T)).1 := by
        rw [hcons]; exact List.mem_cons_self _ _
      have hok : (w.GetTimelines i T (limitParams s.scanned T)).2 = none := by
        by_contra hne
        have := hn i T (limitParams s.scanned T) hne
        rw [this] at hcons
        cases hcons
      have hwm : watermark s.scanned T = some W := by rw [hm]; exact hW
      have hlp : limitParams s.scanned T = { All := false, SinceID := W } :=
        limitParams_of_nonzero _ _ _ hwm (by omega)
      rw [hlp] at hx hok
      exact le_of_lt ((hc i T { All := false, SinceID := W } hok).2 rfl x hx)
    · exact ⟨W, by rw [mapFind_mapAssign_of_ne _ _ _ _ hT]; exact hW, fun _ => le_refl _⟩
  · rw [hm] at hn2
    cases hn2

theorem scanLoop_monotone (w : World) (c : config) (hc : newestFirstSince w)
    (hn : failedFetchReturnsNil w) (hs : List String) :
    ∀ (i : Nat) (s : ScanState) (m : List (String × Int)), s.scanned = some m →
      ∃ s1 m1, scanLoop w c i hs s = Except.ok s1 ∧ s1.scanned = some m1 ∧
        ∀ T W, mapFind m T = some W → ∃ W1, mapFind m1 T = some W1 ∧ (0 < W → W ≤ W1) := by
  induction hs with
  | nil => intro i s m hm; exact ⟨s, m, rfl, hm, fun T W hW => ⟨W, hW, fun _ => le_refl _⟩⟩
  | cons h rest ih =>
    intro i s m hm
    obtain ⟨s1, m1, h1, hm1, hmono1⟩ := scanHashtag_monotone w c i h s m hc hn hm
    obtain ⟨s2, m2, h2, hm2, hmono2⟩ := ih (i + 1) s1 m1 hm1
    refine ⟨s2, m2, ?_, hm2, ?_⟩
    · rw [scanLoop_cons_ok w c i h rest s s1 h1, h2]
    · intro T W hW
      obtain ⟨W1, hW1, hle1⟩ := hmono1 T W hW
      obtain ⟨W2, hW2, hle2⟩ := hmono2 T W1 hW1
      refine ⟨W2, hW2, fun hpos => ?_⟩
      have h12 := hle1 hpos
      exact le_trans h12 (hle2 (by omega))

theorem orderlyWorld_newestFirstSince : newestFirstSince orderlyWorld := by
  intro i h lp _
  cases hA : lp.All <;> simp [orderlyWorld, calmWorld, hA, itemOf, adaItem]

theorem orderlyWorld_failedFetchReturnsNil : failedFetchReturnsNil orderlyWorld := by
  intro i h lp hne
  cases hA : lp.All <;> simp [orderlyWorld, calmWorld, hA] at hne

theorem negativeWorld_newestFirstSince : newestFirstSince negativeWorld := by
  intro i h lp _
  cases hA : lp.All <;> simp [negativeWorld, calmWorld, hA]

theorem negativeWorld_failedFetchReturnsNil : failedFetchReturnsNil negativeWorld := by
  intro i h lp hne
  cases hA : lp.All <;> simp [negativeWorld, calmWorld, hA] at hne

theorem goDownWorld_fails (i : Nat) (lp : LimitParams) :
    ∃ e, goDownWorld.GetTimelines i ":go" lp = ([], some e) :=
  ⟨"connection reset", by simp [goDownWorld]⟩

/-! ## The claims -/

/-- C1 (as amended). In `addStatitoIndex`, the fetch request issued for a
configured topic `T`, at any place `k` of the topic list, is the bounded one
(`All = false`, `SinceID = W`) when the watermark store holds a non-zero entry
`W` for `T` as `T`'s turn comes, and the full-history one (`All = true`, no
`SinceID`) when the store then holds no entry for `T` or the entry `0`. The
request depends on no other topic's watermark: it is the one computed from any
store with the same entry for `T`. At the first place of `T` the store holds
for `T` what it held before the cycle. -/
theorem fetch_request_by_watermark (w : World) (c : config) (k : Nat) (T : String)
    (hT : c.Hashtags[k]? = some T)
    (hissued : k < (requests (addStatitoIndex w c).effects).length) :
    (∀ W, watermark (storeAt w c k) T = some W → W ≠ 0 →
      (requests (addStatitoIndex w c).effects)[k]? =
        some (T, { All := false, SinceID := W })) ∧
    (watermark (storeAt w c k) T = none →
      (requests (addStatitoIndex w c).effects)[k]? = some (T, { All := true })) ∧
    (watermark (storeAt w c k) T = some 0 →
      (requests (addStatitoIndex w c).effects)[k]? = some (T, { All := true })) ∧
    (∀ m, watermark m T = watermark (storeAt w c k) T →
      (requests (addStatitoIndex w c).effects)[k]? = some (T, limitParams m T)) ∧
    (T ∉ c.Hashtags.take k → watermark (storeAt w c k) T = watermark c.HashtagScanned T) := by
  have hreq := addStatitoIndex_request_at_place w c k T hT hissued
  refine ⟨?_, ?_, ?_, ?_, storeAt_of_not_mem w c k T⟩
  · intro W hW hne
    rw [hreq, limitParams_of_nonzero _ _ _ hW hne]
  · intro hW
    rw [hreq, limitParams_of_none _ _ hW]
  · intro hW
    rw [hreq, limitParams_of_zero _ _ hW]
  · intro m hm
    rw [hreq, limitParams_congr _ _ _ hm]

/-- C1, witness: topic `:rust` is listed first and third and has the watermark
7; its first fetch stores 9, and the request issued at its second place is the
bounded one with `SinceID = 9`. -/
theorem fetch_request_by_watermark_witness :
    watermark (storeAt orderlyWorld repeatedTopic 2) ":rust" = some 9 ∧
    (requests (addStatitoIndex orderlyWorld repeatedTopic).effects)[2]? =
      some (":rust", { All := false, SinceID := 9 }) :=
  ⟨by decide,
    (fetch_request_by_watermark orderlyWorld repeatedTopic 2 ":rust" (by decide)
      (by decide)).1 9 (by decide) (by decide)⟩

/-- C1, counterexample: the store holds the entry 0 for topic `:go`, and the
request issued for `:go` is the full-history one, not the bounded one with
`SinceID = 0`. -/
theorem fetch_request_zero_watermark :
    watermark zeroWatermark.HashtagScanned ":go" = some 0 ∧
    requests (addStatitoIndex calmWorld zeroWatermark).effects = [(":go", { All := true })] ∧
    requests (addStatitoIndex calmWorld zeroWatermark).effects ≠
      [(":go", { All := false, SinceID := 0 })] := by
  decide

/-- C2 (as amended). For a topic `T`, the batch that the successful fetch
made for `T` at its last place in the topic list returns (its only place when
`T` is listed once), newest-first as the client returns it, and `W` the
watermark `T` has when that fetch is made (the watermark it had before the
cycle when `T` is listed once): if the batch has items, the watermark of `T`
after the cycle equals the maximum ID among the items of the batch; if the
batch is empty, the watermark of `T` after the cycle equals `W`. -/
theorem watermark_after_fetch (w : World) (c : config) (k : Nat) (T : String) (W : Int)
    (batch : List MadonStatus) (hT : c.Hashtags[k]? = some T)
    (hlast : T ∉ c.Hashtags.drop (k + 1))
    (hW : watermark (storeAt w c k) T = some W)
    (hfetch : w.GetTimelines k T (limitParams (storeAt w c k) T) = (batch, none))
    (hsorted : batch.Pairwise (fun a b => b.ID ≤ a.ID)) :
    (batch = [] → watermark (addStatitoIndex w c).HashtagScanned T = some W) ∧
    (batch ≠ [] → ∃ x ∈ batch, watermark (addStatitoIndex w c).HashtagScanned T = some x.ID ∧
      ∀ y ∈ batch, y.ID ≤ x.ID) ∧
    (T ∉ c.Hashtags.take k → watermark c.HashtagScanned T = some W) := by
  obtain ⟨m, hm⟩ : ∃ m, storeAt w c k = some m := by
    cases hs : storeAt w c k with
    | none => rw [hs] at hW; simp [watermark] at hW
    | some m => exact ⟨m, rfl⟩
  have hat := addStatitoIndex_watermark_at_last_place w c k T m hT hlast hm
  rw [hfetch] at hat
  refine ⟨?_, ?_, ?_⟩
  · intro hb
    rw [hb] at hat
    rw [hat, hW]
  · intro hb
    cases batch with
    | nil => exact absurd rfl hb
    | cons x rest =>
      refine ⟨x, List.mem_cons_self _ _, hat, ?_⟩
      intro y hy
      rcases List.mem_cons.mp hy with rfl | hy
      · exact le_refl _
      · exact (List.pairwise_cons.mp hsorted).1 y hy
  · intro hfirst
    rw [← storeAt_of_not_mem w c k T hfirst, hW]

/-- C2, witness: topic `:rust`, listed first and third, has the watermark 9
when its second fetch is made; the fetch succeeds with the items 11 and 10,
and the watermark of `:rust` after the cycle is 11, the maximum. -/
theorem watermark_after_fetch_witness :
    orderlyWorld.GetTimelines 2 ":rust" (limitParams (storeAt orderlyWorld repeatedTopic 2) ":rust") =
      ([itemOf 11, itemOf 10], none) ∧
    ∃ x ∈ [itemOf 11, itemOf 10],
      watermark (addStatitoIndex orderlyWorld repeatedTopic).HashtagScanned ":rust" = some x.ID ∧
      ∀ y ∈ [itemOf 11, itemOf 10], y.ID ≤ x.ID :=
  ⟨by decide,
    (watermark_after_fetch orderlyWorld repeatedTopic 2 ":rust" 9 [itemOf 11, itemOf 10]
      (by decide) (by decide) (by decide) (by decide) (by decide)).2.1 (by decide)⟩

/-- C2, counterexample: the client returns every batch newest-first and above
the since-ID. Topic `:go`, with the watermark 5, is listed twice. In the first
world its first fetch succeeds with the items 9 and 8, its second with the item
12, which the timeline has gained meanwhile: the watermark of `:go` after the
cycle is 12, not 9, the maximum ID of the first batch. In the second world the
timeline stays as it is, and the second fetch succeeds with an empty batch:
the watermark of `:go` after the cycle is 9, not 5. -/
theorem watermark_not_maximum_of_every_batch :
    (newestFirstSince growingWorld ∧
      watermark listedTwice.HashtagScanned ":go" = some 5 ∧
      growingWorld.GetTimelines 0 ":go" (limitParams listedTwice.HashtagScanned ":go") =
        ([itemOf 9, itemOf 8], none) ∧
      growingWorld.GetTimelines 1 ":go" (limitParams (storeAt growingWorld listedTwice 1) ":go") =
        ([itemOf 12], none) ∧
      watermark (addStatitoIndex growingWorld listedTwice).HashtagScanned ":go" = some 12 ∧
      watermark (addStatitoIndex growingWorld listedTwice).HashtagScanned ":go" ≠ some 9) ∧
    (newestFirstSince steadyWorld ∧
      steadyWorld.GetTimelines 1 ":go" (limitParams (storeAt steadyWorld listedTwice 1) ":go") =
        ([], none) ∧
      watermark (addStatitoIndex steadyWorld listedTwice).HashtagScanned ":go" = some 9 ∧
      watermark (addStatitoIndex steadyWorld listedTwice).HashtagScanned ":go" ≠ some 5) :=
  ⟨⟨growingWorld_newestFirstSince, by decide, by decide, by decide, by decide, by decide⟩,
    ⟨steadyWorld_newestFirstSince, by decide, by decide, by decide⟩⟩

/-- C3 (as amended). In one cycle of `addStatitoIndex` the watermarks are
advanced and persisted (`saveConfig`) in the fetch loop, before any document is
written to the index. With a map that is not nil, the cycle saves once per
topic, in order, each time the configuration with the map as the iteration for
that topic left it; that iteration has advanced the entry of its topic to the
ID of the first item fetched, if any was. In the sequence of effects every
`saveConfig` comes before every index write, and the watermarks after the
cycle are the same whatever the index writes return, failure included. -/
theorem watermarks_persisted_before_index_writes (w : World) (c : config) :
    (∀ m, c.HashtagScanned = some m →
      saves (addStatitoIndex w c).effects =
        (List.range c.Hashtags.length).map (fun k =>
          ({ c with HashtagScanned := storeAt w c (k + 1) } : config))) ∧
    (∀ (k : Nat) (T : String) (m : List (String × Int)),
      c.Hashtags[k]? = some T → storeAt w c k = some m →
      storeAt w c (k + 1) =
        match (w.GetTimelines k T (limitParams (storeAt w c k) T)).1 with
        | [] => some m
        | x :: _ => some (mapAssign m T x.ID)) ∧
    (∀ (i j : Nat) (e1 e2 : Effect), (addStatitoIndex w c).effects[i]? = some e1 →
      isIndexWrite e1 = true →
      (addStatitoIndex w c).effects[j]? = some e2 → isSave e2 = true → j < i) ∧
    (∀ idx, (addStatitoIndex { w with Index := idx } c).HashtagScanned =
      (addStatitoIndex w c).HashtagScanned) := by
  refine ⟨addStatitoIndex_saves w c, fun k T m hT hm => storeAt_succ w c k T m hT hm, ?_,
    fun idx => addStatitoIndex_independent_of_Index w idx c⟩
  obtain ⟨scan, writes, hsplit, hscan, hwrites⟩ := addStatitoIndex_effects_split w c
  intro i j e1 e2 h1 hi h2 hs
  rw [hsplit] at h1 h2
  have hi_ge : scan.length ≤ i := by
    by_contra hlt
    have hlt : i < scan.length := by omega
    rw [List.getElem?_append_left hlt] at h1
    have hmem : e1 ∈ scan := List.getElem?_mem h1
    rw [hscan e1 hmem] at hi
    cases hi
  have hj_lt : j < scan.length := by
    by_contra hge
    have hge : scan.length ≤ j := by omega
    rw [List.getElem?_append_right hge] at h2
    have hmem : e2 ∈ writes := List.getElem?_mem h2
    rw [not_isSave_of_isIndexWrite e2 (hwrites e2 hmem)] at hs
    cases hs
  omega

/-- C3, counterexample: one topic, one fetched item, and the index write of
that item fails. The save that persists the advanced watermark 42 comes before
the index write, and the watermark after the cycle is 42, not what it was. -/
theorem watermark_saved_before_failed_write :
    (addStatitoIndex failingIndexWorld freshTopic).effects =
      [Effect.GetTimelines ":go" { All := true },
        Effect.saveConfig { freshTopic with HashtagScanned := some [(":go", 42)] } "" none,
        Effect.indexIndex "42" (IndexData.madonStatus adaItem) (some "index closed")] ∧
    watermark freshTopic.HashtagScanned ":go" = none ∧
    watermark (addStatitoIndex failingIndexWorld freshTopic).HashtagScanned ":go" = some 42 := by
  decide

/-- C4. When the fetches for topic `T` fail, with the nil item list the client
returns with every error, the watermark of `T` after the cycle equals the
watermark of `T` before the cycle, and the cycle is the one in which the
fetches for `T` return no items, log lines apart: the same fetches, saves and
index writes in the same order, the same watermarks after it, the same end.
With a map that is not nil every topic of the list is fetched. -/
theorem failed_fetch_keeps_watermark (w : World) (c : config) (T : String)
    (hfail : ∀ (i : Nat) (lp : LimitParams), ∃ e, w.GetTimelines i T lp = ([], some e)) :
    watermark (addStatitoIndex w c).HashtagScanned T = watermark c.HashtagScanned T ∧
    (addStatitoIndex w c).HashtagScanned =
      (addStatitoIndex (withEmptyFetch w T) c).HashtagScanned ∧
    (addStatitoIndex w c).fault = (addStatitoIndex (withEmptyFetch w T) c).fault ∧
    (addStatitoIndex w c).effects.filter (fun e => !isLog e) =
      (addStatitoIndex (withEmptyFetch w T) c).effects.filter (fun e => !isLog e) ∧
    (∀ m, c.HashtagScanned = some m →
      (requests (addStatitoIndex w c).effects).map Prod.fst = c.Hashtags) := by
  have hempty : ∀ (i : Nat) (lp : LimitParams), (w.GetTimelines i T lp).1 = [] := by
    intro i lp
    obtain ⟨e, he⟩ := hfail i lp
    rw [he]
  obtain ⟨h1, h2, h3⟩ := addStatitoIndex_agree w c T hfail
  refine ⟨?_, h1, h2, h3, addStatitoIndex_all_topics_requested w c⟩
  rw [addStatitoIndex_scanned]
  exact scanLoop_watermark_of_empty_fetch w c T hempty c.Hashtags 0 (scanStart c)

/-- C4, witness: the fetch for `:go` fails; the watermark of `:go`, none
before the cycle, is none after it, and topic `:rust` is fetched with its
since-ID, its item is written to the index and its watermark moves to 42. -/
theorem failed_fetch_keeps_watermark_witness :
    watermark (addStatitoIndex goDownWorld twoTopics).HashtagScanned ":go" =
      watermark twoTopics.HashtagScanned ":go" ∧
    (addStatitoIndex goDownWorld twoTopics).effects.filter (fun e => !isLog e) =
      [Effect.GetTimelines ":go" { All := true },
        Effect.saveConfig twoTopics "" none,
        Effect.GetTimelines ":rust" { All := false, SinceID := 7 },
        Effect.saveConfig { twoTopics with HashtagScanned := some [(":rust", 42)] } "" none,
        Effect.indexIndex "42" (IndexData.madonStatus adaItem) none] ∧
    (addStatitoIndex (withEmptyFetch goDownWorld ":go") twoTopics).effects.filter
        (fun e => !isLog e) =
      (addStatitoIndex goDownWorld twoTopics).effects.filter (fun e => !isLog e) :=
  ⟨(failed_fetch_keeps_watermark goDownWorld twoTopics ":go" goDownWorld_fails).1, by decide,
    (failed_fetch_keeps_watermark goDownWorld twoTopics ":go" goDownWorld_fails).2.2.2.1.symm⟩

/-- C5, the code at a failing input: one item is fetched successfully. The key
of the index write is the decimal string of the item's ID, but the value
written is the fetched `madon.Status` itself, not the `Status` built from it
(name `Ada / ada`, message, URL), by value or by pointer. It is so for every
index write of every cycle. -/
theorem index_write_passes_raw_item :
    (addStatitoIndex calmWorld freshTopic).effects.filter isIndexWrite =
      [Effect.indexIndex "42" (IndexData.madonStatus adaItem) none] ∧
    mkStatus adaItem = some adaStatus ∧
    adaStatus =
      { ID := "42", Name := "Ada / ada", Message := "<p>can help with Go</p>",
        URL := "https://example.social/@ada/42" } ∧
    Effect.indexIndex "42" (IndexData.status adaStatus) none ∉
      (addStatitoIndex calmWorld freshTopic).effects ∧
    Effect.indexIndex "42" (IndexData.statusPtr adaStatus) none ∉
      (addStatitoIndex calmWorld freshTopic).effects ∧
    (∀ (w : World) (c : config) (e : Effect), e ∈ (addStatitoIndex w c).effects →
      isIndexWrite e = true →
      ∃ s err, e = Effect.indexIndex (toString s.ID) (IndexData.madonStatus s) err) :=
  ⟨by decide, by decide, by decide, by decide, by decide, addStatitoIndex_index_writes_raw⟩

/-- C6, the code at the failing inputs: for every query string for which the
search returns an error and no result, `resultHandler` writes the error to the
response, goes on, and faults at line 141 reading the hits of the nil
result; no template is shown. -/
theorem resultHandler_faults_on_search_error (hw : HandlerWorld) (q e : String) :
    resultHandler { hw with Search := fun _ => (none, some e) } q =
      Except.error [HandlerEffect.Search q true,
        HandlerEffect.Fprintln "Error executing search:" e,
        HandlerEffect.SortBy ["-_score"]] := by
  rfl

/-- C7, the code at a failing input: the search for `fox` succeeds with one
hit. The handler prints the hit and its fields and hands the empty sequence to
the result template, not a sequence with an entry for the hit. The sort order
is set on the request after the search has run. For every query and whatever
the index answers, the result view is empty when the template is reached. -/
theorem resultHandler_shows_no_hit :
    foxWorld.Search "fox" = (some { Hits := [foxHit] }, none) ∧
    resultHandler foxWorld "fox" =
      Except.ok [HandlerEffect.Search "fox" true,
        HandlerEffect.SortBy ["-_score"],
        HandlerEffect.Println 0 foxHit,
        HandlerEffect.Printf "Name" "Ada / ada",
        HandlerEffect.Printf "URL" "https://example.social/@ada/1",
        HandlerEffect.ParseFiles "templates/result.html",
        HandlerEffect.Execute "templates/result.html" []] ∧
    resultView (resultHandler foxWorld "fox") = some [] ∧
    (∀ (hw : HandlerWorld) (q : String),
      resultView (resultHandler hw q) = none ∨ resultView (resultHandler hw q) = some []) :=
  ⟨by decide, by rfl, by rfl, resultView_resultHandler⟩

/-- C8 (as amended). Provided every successful fetch returns its items
newest-first and, when a since-ID was requested, only items with an ID above
it (a failed fetch returning no items, as the client does): one cycle of
`addStatitoIndex` never decreases a watermark that is above zero. For every
topic list, also one that names a topic more than once, every topic `T` that
had a watermark `W` before the cycle has a watermark after it, which is at
least `W` when `W > 0`. -/
theorem watermark_never_decreases (w : World) (c : config) (T : String) (W : Int)
    (hc : newestFirstSince w) (hn : failedFetchReturnsNil w)
    (hW : watermark c.HashtagScanned T = some W) :
    ∃ W1, watermark (addStatitoIndex w c).HashtagScanned T = some W1 ∧ (0 < W → W ≤ W1) := by
  obtain ⟨m, hm⟩ : ∃ m, c.HashtagScanned = some m := by
    cases hcs : c.HashtagScanned with
    | none => rw [hcs] at hW; simp [watermark] at hW
    | some m => exact ⟨m, rfl⟩
  obtain ⟨s1, m1, h1, hm1, hmono⟩ :=
    scanLoop_monotone w c hc hn c.Hashtags 0 (scanStart c) m hm
  rw [hm] at hW
  obtain ⟨W1, hW1, hle⟩ := hmono T W hW
  refine ⟨W1, ?_, hle⟩
  rw [addStatitoIndex_scanned, h1]
  simp only [finalState, hm1]
  exact hW1

/-- C8, witness: topic `:rust` is listed twice and has the watermark 7; the
client keeps the provisos, and the watermark of `:rust` after the cycle is at
least 7. -/
theorem watermark_never_decreases_witness :
    watermark repeatedTopic.HashtagScanned ":rust" = some 7 ∧
    ∃ W1, watermark (addStatitoIndex orderlyWorld repeatedTopic).HashtagScanned ":rust" =
        some W1 ∧ ((0 : Int) < 7 → 7 ≤ W1) :=
  ⟨by decide,
    watermark_never_decreases orderlyWorld repeatedTopic ":rust" 7 orderlyWorld_newestFirstSince
      orderlyWorld_failedFetchReturnsNil (by decide)⟩

/-- C8, counterexample: the client keeps the proviso of the claim and returns
no items with an error. Topic `:go` has the watermark 0, so that its fetch is
a full-history one, which succeeds with an item of ID -1: the watermark of
`:go` after the cycle is -1, below 0. -/
theorem watermark_can_decrease :
    newestFirstSince negativeWorld ∧ failedFetchReturnsNil negativeWorld ∧
    watermark zeroWatermark.HashtagScanned ":go" = some 0 ∧
    watermark (addStatitoIndex negativeWorld zeroWatermark).HashtagScanned ":go" = some (-1) :=
  ⟨negativeWorld_newestFirstSince, negativeWorld_failedFetchReturnsNil, by decide, by decide⟩

/-- C9, the code at a failing input. The mapping `main` creates the index with
registers, for the type `Status`, the fields `Message` and `Name` as stored
text analyzed with `en`, and `URL` as stored and not indexed. But the value
`addStatitoIndex` writes for a fetched item is the `madon.Status`, which has no
`Type` method: its document type is the default type, not `Status`, and the
mapping that governs it is the default mapping, not the one registered. -/
theorem indexed_documents_are_not_Status :
    (mainMapping.TypeMapping.lookup "Status").map (fun dm => dm.Properties) =
      some [
        ("Message", [{ Type_ := "text", Analyzer := "en", Store := true, Index := true,
                       IncludeTermVectors := true, IncludeInAll := true }]),
        ("Name", [{ Type_ := "text", Analyzer := "en", Store := true, Index := true,
                    IncludeTermVectors := true, IncludeInAll := true }]),
        ("URL", [{ Type_ := "text", Analyzer := "", Store := true, Index := false,
                   IncludeTermVectors := true, IncludeInAll := true }])] ∧
    (addStatitoIndex calmWorld freshTopic).effects.filter isIndexWrite =
      [Effect.indexIndex "42" (IndexData.madonStatus adaItem) none] ∧
    documentType mainMapping (IndexData.madonStatus adaItem) = "_default" ∧
    some (documentType mainMapping (IndexData.madonStatus adaItem)) ≠
      (mkStatus adaItem).map Status.Type_ ∧
    mappingFor mainMapping (IndexData.madonStatus adaItem) = mainMapping.DefaultMapping ∧
    some (mappingFor mainMapping (IndexData.madonStatus adaItem)) ≠
      mainMapping.TypeMapping.lookup "Status" := by
  decide

/-- C10, the code at a failing input: the configuration file has no
`HashtagScanned` entry, the index exists already and is opened, and the fetch
for the one topic returns an item. `main` hands the nil map to
`addStatitoIndex`, and the cycle faults at line 99, after the fetch and before
any save; where `main` creates the index instead, the same cycle completes.
In general a cycle on a nil map faults when the fetch of the first topic
returns an item. -/
theorem nil_map_cycle_faults :
    mainConfig loadedWithoutMap StatResult.found false false = some loadedWithoutMap ∧
    mainInitialScan calmWorld loadedWithoutMap StatResult.found false false =
      some { HashtagScanned := none, effects := [Effect.GetTimelines ":go" { All := true }],
             fault := true } ∧
    (mainInitialScan calmWorld loadedWithoutMap StatResult.notExist false false).map
      (fun o => o.fault) = some false ∧
    (∀ (w : World) (c : config) (h : String) (hs : List String),
      c.Hashtags = h :: hs → c.HashtagScanned = none →
      (w.GetTimelines 0 h { All := true }).1 ≠ [] → (addStatitoIndex w c).fault = true) :=
  ⟨by decide, by decide, by decide, addStatitoIndex_fault_of_nil⟩

end CanHelpWith
